import Mathlib

/-!
Shallow embedding of the set-associative cache simulator from
src/Cache/cache.c, with the structure and policy-flag definitions from the
accompanying header (src/unnamed/part_000, i.e. cache.h).

Modelling conventions:
- machine integers are Nat; operations on fixed-width C integers note the
  width where it matters (uintptr_t and uint64_t are 64 bits wide, and
  sizeof(uintptr_t) = 8 on this LP64 target);
- byte buffers (the backing memory and each line's block) are total
  functions from byte index to byte value; the flat arrays of lines and of
  sets are total functions from index to record, with the C-meaningful
  index ranges stated in each theorem;
- a line's block pointer (memory + i * line_size in the C code) is kept as
  the field block_base, the byte offset of the slice inside the cache's
  single backing allocation;
- the C functions cache_read, cache_write, cache_set_find_matching_line,
  find_available_cache_line, choose_unmarked_cache_line and
  cache_line_retrieve_data are unimplemented stubs in the repository
  (marked TO BE COMPLETED BY THE STUDENT); their definitions below are
  modelled from the spec, and each such definition says so in its doc
  comment.  Everything else is translated from the source.
-/

/-- Replacement-policy field mask from cache.h (0b00011100). -/
def CACHE_REPLACEMENTPOLICY_MASK : Nat := 28

/-- Replacement policy RANDOM from cache.h (0b00000000). -/
def CACHE_REPLACEMENTPOLICY_RANDOM : Nat := 0

/-- Replacement policy LRU from cache.h (0b00000100). -/
def CACHE_REPLACEMENTPOLICY_LRU : Nat := 4

/-- Replacement policy MRU from cache.h (0b00001000). -/
def CACHE_REPLACEMENTPOLICY_MRU : Nat := 8

/-- Replacement policy RANDOMIZED_MARKING from cache.h (0b00010000). -/
def CACHE_REPLACEMENTPOLICY_RANDOMIZED_MARKING : Nat := 16

/-- Write-policy field mask from cache.h (0b00000011). -/
def CACHE_WRITEPOLICY_MASK : Nat := 3

/-- Write policy WRITEBACK bit from cache.h (0b00000001); clear means
write-through. -/
def CACHE_WRITEPOLICY_WRITEBACK : Nat := 1

/-- Write policy WRITENOALLOCATE bit from cache.h (0b00000010); clear means
write-allocate. -/
def CACHE_WRITEPOLICY_WRITENOALLOCATE : Nat := 2

/-- A cache line (struct cache_line_s from cache.h).  The C block pointer
into the backing allocation is split into its contents (block, a byte
function) and its byte offset inside the allocation (block_base). -/
structure CacheLine where
  is_valid : Bool
  is_dirty : Bool
  is_marked : Bool
  tag : Nat
  block : Nat → Nat
  block_base : Nat

/-- A cache set (struct cache_set_s from cache.h).  The lines pointer is
the cache's global line array, so only first_index is kept here. -/
structure CacheSet where
  first_index : Nat
  lru_list : List Nat
  num_marked : Nat

/-- The cache (struct cache_s from cache.h). -/
structure Cache where
  num_sets : Nat
  num_lines : Nat
  line_size : Nat
  associativity : Nat
  block_offset_mask : Nat
  cache_index_mask : Nat
  cache_index_shift : Nat
  tag_mask : Nat
  tag_shift : Nat
  policies : Nat
  lines : Nat → CacheLine
  sets : Nat → CacheSet
  access_count : Nat
  miss_count : Nat

/-- Fuel-indexed loop of logbase2; the fuel bounds the number of halving
steps, and fuel = value always suffices since value at least halves each
iteration.  Structural recursion keeps the definition kernel-reducible. -/
def logbase2_loop : Nat → Nat → Nat
  | 0, _ => 0
  | fuel + 1, value => if 1 < value then 1 + logbase2_loop fuel (value / 2) else 0

/-- Translation of logbase2 from cache.c: repeatedly shift right until the
value is at most 1, counting the shifts. -/
def logbase2 (value : Nat) : Nat := logbase2_loop value value

/-- Translation of maskbits from cache.c: (1L << nbits) - 1, a mask nbits
bits wide. -/
def maskbits (nbits : Nat) : Nat := (1 <<< nbits) - 1

/-- Translation of cache_set_init from cache.c: record the index of the
set's first line, make the recency list the identity permutation
0, 1, ..., associativity - 1, and zero the marked counter.  (The function
also clears each of its lines' valid bits; in this embedding the lines are
created already invalid by cache_new, matching the calloc in the source.) -/
def cache_set_init (associativity first_index : Nat) : CacheSet :=
  { first_index := first_index
    lru_list := List.range associativity
    num_marked := 0 }

/-- Translation of cache_new from cache.c.  Sizes are divided with
truncating integer division exactly as in the source (no validation is
performed).  The masks are computed from logbase2/maskbits; note that the
source computes the tag mask width as sizeof(uintptr_t) - tag_shift, where
sizeof(uintptr_t) is 8 (bytes) on the LP64 target.  The lines come from
calloc (all flags false, tag 0) with block pointers laid out contiguously
at i * block_size; the backing allocation is malloc'd, so its initial byte
contents are unspecified in C and are modelled as 0 here (no claim depends
on them).  The set at index k starts at line k * associativity. -/
def cache_new (num_bytes block_size associativity policies : Nat) : Cache :=
  let num_lines := num_bytes / block_size
  let num_sets := num_lines / associativity
  let offset_bits := logbase2 block_size
  let offset_mask := maskbits offset_bits
  let index_bits := logbase2 num_sets
  let index_mask := maskbits index_bits
  { num_sets := num_sets
    num_lines := num_lines
    line_size := block_size
    associativity := associativity
    block_offset_mask := offset_mask
    cache_index_mask := index_mask <<< offset_bits
    cache_index_shift := offset_bits
    tag_mask := maskbits (8 - (offset_bits + index_bits)) <<< (offset_bits + index_bits)
    tag_shift := offset_bits + index_bits
    policies := policies
    lines := fun i =>
      { is_valid := false
        is_dirty := false
        is_marked := false
        tag := 0
        block := fun _ => 0
        block_base := i * block_size }
    sets := fun k => cache_set_init associativity (k * associativity)
    access_count := 0
    miss_count := 0 }

/-- Address decomposition, block-offset part: address & block_offset_mask
(the spec's formula, evaluated with the masks the source precomputes). -/
def decode_offset (c : Cache) (address : Nat) : Nat :=
  address &&& c.block_offset_mask

/-- Address decomposition, set-index part:
(address & cache_index_mask) >> cache_index_shift. -/
def decode_index (c : Cache) (address : Nat) : Nat :=
  (address &&& c.cache_index_mask) >>> c.cache_index_shift

/-- Address decomposition, tag part: (address & tag_mask) >> tag_shift. -/
def decode_tag (c : Cache) (address : Nat) : Nat :=
  (address &&& c.tag_mask) >>> c.tag_shift

/-- C1: for the configuration of 256 total bytes, 16-byte blocks and
associativity 2, the source precomputes tag_shift = 7 but a tag mask that
is maskbits(sizeof(uintptr_t) - 7) = maskbits(1) << 7 = 0x80, only one bit
wide, because it uses sizeof(uintptr_t) = 8 (bytes) where the address
width in bits (64) was intended.  Decoding address 0x100 therefore yields
tag 0, while the remaining high bits of the address above the offset and
index bits are 0x100 >> 7 = 2.  This exhibits the divergence between the
code and the claim at a concrete input. -/
theorem C1_tag_mask_sizeof_bug :
    (cache_new 256 16 2 0).tag_shift = 7 ∧
    (cache_new 256 16 2 0).tag_mask = 128 ∧
    decode_tag (cache_new 256 16 2 0) 256 = 0 ∧
    (256 : Nat) >>> 7 = 2 ∧ (0 : Nat) ≠ 2 := by
  decide

/-- C2 counterexample: cache_new with num_bytes = 7 (not a power of two)
and block_size = 3 (not a power of two) does not fail: it returns a cache
object whose num_lines field is 7 / 3 = 2, silently truncating (2 lines of
3 bytes cover 6 of the requested 7 bytes).  No invalid-configuration error
exists anywhere in the construction path. -/
theorem C2_counterexample_no_failfast :
    (cache_new 7 3 1 0).num_lines = 2 ∧ (cache_new 7 3 1 0).num_lines * 3 ≠ 7 := by
  decide

/-- C2 amended: cache_new performs no validation of its arguments; for any
arguments with nonzero block size and associativity (zero divisors are
undefined behaviour in the C source) it always produces a cache object,
with num_lines = num_bytes / block_size and
num_sets = num_lines / associativity computed by truncating integer
division. -/
theorem C2_amended_no_validation (nb bs a p : Nat) (_hbs : 0 < bs) (_ha : 0 < a) :
    (cache_new nb bs a p).num_lines = nb / bs ∧
    (cache_new nb bs a p).num_sets = nb / bs / a :=
  ⟨rfl, rfl⟩

/-- C2 witness: the amended statement evaluated at the concrete invalid
configuration (7, 3, 1). -/
theorem C2_amended_no_validation_witness :
    0 < 3 ∧ 0 < 1 ∧
      ((cache_new 7 3 1 0).num_lines = 7 / 3 ∧ (cache_new 7 3 1 0).num_sets = 7 / 3 / 1) :=
  ⟨by decide, by decide, C2_amended_no_validation 7 3 1 0 (by decide) (by decide)⟩

/-- C9 counterexample: the concrete scenario in the claim is wrong about
the code: a cache of 256 total bytes with 16-byte lines and associativity
2 has 256 / 16 = 16 lines and 16 / 2 = 8 sets, not 8 lines and 4 sets. -/
theorem C9_counterexample_concrete_geometry :
    (cache_new 256 16 2 0).num_lines = 16 ∧
    (cache_new 256 16 2 0).num_sets = 8 ∧
    (cache_new 256 16 2 0).num_lines ≠ 8 ∧
    (cache_new 256 16 2 0).num_sets ≠ 4 := by
  decide

/-- C9 amended: for parameters satisfying the preconditions (powers of
two, nonzero, associativity dividing the line count), the geometry fields
satisfy num_lines = total_bytes / block_size,
num_sets = num_lines / associativity and num_lines = num_sets *
associativity exactly; the concrete configuration of 256 bytes, 16-byte
lines and associativity 2 yields 16 lines and 8 sets (not 8 and 4 as the
claim stated). -/
theorem C9_amended_geometry (nb bs a p : Nat)
    (_hnb : ∃ i, nb = 2 ^ i) (_hbs : ∃ j, bs = 2 ^ j)
    (_hbs0 : 0 < bs) (_ha0 : 0 < a) (hdvd : a ∣ nb / bs) :
    (cache_new nb bs a p).num_lines = nb / bs ∧
    (cache_new nb bs a p).num_sets = nb / bs / a ∧
    (cache_new nb bs a p).num_sets * a = (cache_new nb bs a p).num_lines ∧
    (cache_new 256 16 2 p).num_lines = 16 ∧
    (cache_new 256 16 2 p).num_sets = 8 :=
  ⟨rfl, rfl, Nat.div_mul_cancel hdvd, rfl, rfl⟩

/-- C9 witness: the amended geometry statement evaluated at the concrete
configuration (256, 16, 2). -/
theorem C9_amended_geometry_witness :
    (∃ i, (256 : Nat) = 2 ^ i) ∧ (∃ j, (16 : Nat) = 2 ^ j) ∧
    (0 : Nat) < 16 ∧ (0 : Nat) < 2 ∧ (2 : Nat) ∣ 256 / 16 ∧
      ((cache_new 256 16 2 0).num_lines = 256 / 16 ∧
       (cache_new 256 16 2 0).num_sets = 256 / 16 / 2 ∧
       (cache_new 256 16 2 0).num_sets * 2 = (cache_new 256 16 2 0).num_lines ∧
       (cache_new 256 16 2 0).num_lines = 16 ∧
       (cache_new 256 16 2 0).num_sets = 8) :=
  ⟨⟨8, by decide⟩, ⟨4, by decide⟩, by decide, by decide, ⟨8, by decide⟩,
    C9_amended_geometry 256 16 2 0 ⟨8, by decide⟩ ⟨4, by decide⟩ (by decide) (by decide)
      ⟨8, by decide⟩⟩

/-- C10: immediately after cache_new, the access and miss counters are 0;
every line (in the C-meaningful range) is invalid with its block slice
starting at byte i * block_size of the single backing allocation; every
set's recency list is the identity permutation and its marked counter is
0; and distinct lines' block slices are disjoint (the earlier line's slice
ends no later than the later one's begins). -/
theorem C10_initial_state (nb bs a p : Nat) :
    (cache_new nb bs a p).access_count = 0 ∧
    (cache_new nb bs a p).miss_count = 0 ∧
    (∀ i, i < (cache_new nb bs a p).num_lines →
      ((cache_new nb bs a p).lines i).is_valid = false ∧
      ((cache_new nb bs a p).lines i).block_base = i * bs) ∧
    (∀ k, k < (cache_new nb bs a p).num_sets →
      ((cache_new nb bs a p).sets k).first_index = k * a ∧
      ((cache_new nb bs a p).sets k).lru_list = List.range a ∧
      ((cache_new nb bs a p).sets k).num_marked = 0) ∧
    (∀ i j, i < j → j < (cache_new nb bs a p).num_lines →
      ((cache_new nb bs a p).lines i).block_base + (cache_new nb bs a p).line_size ≤
        ((cache_new nb bs a p).lines j).block_base) := by
  refine ⟨rfl, rfl, fun i _ => ⟨rfl, rfl⟩, fun k _ => ⟨rfl, rfl, rfl⟩, ?_⟩
  intro i j hij _
  show i * bs + bs ≤ j * bs
  calc i * bs + bs = (i + 1) * bs := by ring
    _ ≤ j * bs := Nat.mul_le_mul_right bs hij

/-- C10 witness: the initial-state statement evaluated on the concrete
cache of 256 bytes, 16-byte lines, associativity 2, sampling line 3, set
5, and the pair of lines 3 and 7. -/
theorem C10_initial_state_witness :
    (cache_new 256 16 2 0).access_count = 0 ∧
    ((cache_new 256 16 2 0).lines 3).is_valid = false ∧
    ((cache_new 256 16 2 0).lines 3).block_base = 3 * 16 ∧
    ((cache_new 256 16 2 0).sets 5).lru_list = List.range 2 ∧
    ((cache_new 256 16 2 0).sets 5).num_marked = 0 ∧
    ((cache_new 256 16 2 0).lines 3).block_base + (cache_new 256 16 2 0).line_size ≤
      ((cache_new 256 16 2 0).lines 7).block_base :=
  ⟨(C10_initial_state 256 16 2 0).1,
    ((C10_initial_state 256 16 2 0).2.2.1 3 (by decide)).1,
    ((C10_initial_state 256 16 2 0).2.2.1 3 (by decide)).2,
    ((C10_initial_state 256 16 2 0).2.2.2.1 5 (by decide)).2.1,
    ((C10_initial_state 256 16 2 0).2.2.2.1 5 (by decide)).2.2,
    (C10_initial_state 256 16 2 0).2.2.2.2 3 7 (by decide) (by decide)⟩

/-- Replace the line at global index g. -/
def updateLine (c : Cache) (g : Nat) (l : CacheLine) : Cache :=
  { c with lines := fun j => if j = g then l else c.lines j }

/-- Replace the set at index k. -/
def updateSet (c : Cache) (k : Nat) (s : CacheSet) : Cache :=
  { c with sets := fun j => if j = k then s else c.sets j }

/-- Replacement-policy bits of the policy byte, selected with the mask as
the header's comment prescribes. -/
def repl_policy (c : Cache) : Nat :=
  c.policies &&& CACHE_REPLACEMENTPOLICY_MASK

/-- Write-back bit test on the policy byte (clear means write-through). -/
def is_writeback (c : Cache) : Bool :=
  (c.policies &&& CACHE_WRITEPOLICY_WRITEBACK) == CACHE_WRITEPOLICY_WRITEBACK

/-- Write-no-allocate bit test on the policy byte (clear means
write-allocate). -/
def is_writenoallocate (c : Cache) : Bool :=
  (c.policies &&& CACHE_WRITEPOLICY_WRITENOALLOCATE) == CACHE_WRITEPOLICY_WRITENOALLOCATE

/-- Modelled from the spec: store the eight bytes of the 64-bit value v
into the byte function f at positions pos .. pos+7, least-significant byte
first (the native byte order of the modelled target). -/
def write_bytes8 (f : Nat → Nat) (pos v : Nat) : Nat → Nat :=
  fun x => if x < pos ∨ pos + 8 ≤ x then f x else (v >>> (8 * (x - pos))) % 256

/-- Modelled from the spec: assemble the 64-bit word stored at positions
pos .. pos+7 of the byte function f, least-significant byte first. -/
def read_word64 (f : Nat → Nat) (pos : Nat) : Nat :=
  f pos + f (pos + 1) * 2 ^ 8 + f (pos + 2) * 2 ^ 16 + f (pos + 3) * 2 ^ 24 +
    f (pos + 4) * 2 ^ 32 + f (pos + 5) * 2 ^ 40 + f (pos + 6) * 2 ^ 48 +
    f (pos + 7) * 2 ^ 56

/-- Modelled from the spec (the C cache_line_retrieve_data is an
unimplemented stub): return the uint64 stored at the given byte offset of
the line's block. -/
def cache_line_retrieve_data (line : CacheLine) (offset : Nat) : Nat :=
  read_word64 line.block offset

/-- Modelled from the spec (the C cache_line_check_validity_and_tag is an
unimplemented stub): a line matches when its valid bit is set and its tag
equals the given tag. -/
def cache_line_check_validity_and_tag (line : CacheLine) (tag : Nat) : Bool :=
  line.is_valid && line.tag == tag

/-- Translation of cache_line_make_mru from cache.c, acting on the set's
recency list: the C loop finds the position of the first occurrence of
line_index, shifts every later entry down one slot, and writes line_index
into the last slot.  On a list this is take p ++ drop (p+1) ++
[line_index] with p the found position.  (When line_index does not occur,
the C code indexes the list at SIZE_MAX, which is undefined behaviour; the
theorems therefore assume membership.) -/
def cache_line_make_mru (lru : List Nat) (line_index : Nat) : List Nat :=
  lru.take (lru.findIdx fun x => x == line_index) ++
    lru.drop ((lru.findIdx fun x => x == line_index) + 1) ++ [line_index]

/-- Apply cache_line_make_mru to the recency list of set k. -/
def touch_mru (c : Cache) (k line_index : Nat) : Cache :=
  updateSet c k { c.sets k with
    lru_list := cache_line_make_mru (c.sets k).lru_list line_index }

/-- Modelled from the spec (the C cache_set_find_matching_line is an
unimplemented stub): scan the lines of set k in set-local order and return
the local index of the first valid line holding the given tag, if any.
The LRU recency update on a hit is performed by the callers. -/
def cache_set_find_matching_line (c : Cache) (k tag : Nat) : Option Nat :=
  (List.range c.associativity).find? fun i =>
    cache_line_check_validity_and_tag (c.lines ((c.sets k).first_index + i)) tag

/-- Modelled from the spec: set the marked bit of the line at local index
i of set k and increment the set's marked counter. -/
def mark_line (c : Cache) (k i : Nat) : Cache :=
  let g := (c.sets k).first_index + i
  let c1 := updateLine c g { c.lines g with is_marked := true }
  updateSet c1 k { c1.sets k with num_marked := (c.sets k).num_marked + 1 }

/-- Modelled from the spec: clear the marked bit of the n lines at global
indices fi, fi+1, ..., fi+n-1 of a line array. -/
def unmark_lines (lines : Nat → CacheLine) (fi : Nat) : Nat → (Nat → CacheLine)
  | 0 => lines
  | n + 1 => fun j =>
    if j = fi + n then { unmark_lines lines fi n (fi + n) with is_marked := false }
    else unmark_lines lines fi n j

/-- Modelled from the spec: unmark every line of set k and reset the
set's marked counter to 0. -/
def unmark_all (c : Cache) (k : Nat) : Cache :=
  { c with
    lines := unmark_lines c.lines (c.sets k).first_index c.associativity
    sets := fun j => if j = k then { c.sets k with num_marked := 0 } else c.sets j }

/-- Modelled from the spec: the set-local indices of the currently
unmarked lines of set k, in set-local order. -/
def unmarked_list (c : Cache) (k : Nat) : List Nat :=
  (List.range c.associativity).filter fun i =>
    !(c.lines ((c.sets k).first_index + i)).is_marked

/-- Modelled from the spec (the C choose_unmarked_cache_line is an
unimplemented stub): choose uniformly at random among the currently
unmarked lines of set k (via rand modulo their number) and mark the chosen
line; if every line of the set is marked, first unmark them all (resetting
the marked counter to 0), then choose among all lines via rand modulo the
associativity and mark the chosen one.  Returns the updated cache and the
chosen local index. -/
def choose_unmarked_cache_line (c : Cache) (k rand : Nat) : Cache × Nat :=
  let unmarked := unmarked_list c k
  if unmarked.length = 0 then
    let c1 := unmark_all c k
    let i := rand % c.associativity
    (mark_line c1 k i, i)
  else
    let i := unmarked.getD (rand % unmarked.length) 0
    (mark_line c k i, i)

/-- Modelled from the spec (the C find_available_cache_line is an
unimplemented stub): prefer the first invalid line of set k; when the set
is full choose a victim by the configured replacement policy (RANDOM:
rand modulo associativity; LRU: head of the recency list, then moved to
most-recently-used; MRU: tail of the recency list, which already is the
most-recently-used position; RANDOMIZED_MARKING: a random unmarked line,
which is then marked).  Under LRU the chosen line is moved to the
most-recently-used position, as the source comment prescribes.  Returns
the updated cache and the chosen local index. -/
def find_available_cache_line (c : Cache) (k rand : Nat) : Cache × Nat :=
  let fi := (c.sets k).first_index
  match (List.range c.associativity).find? (fun i => !(c.lines (fi + i)).is_valid) with
  | some i =>
    (if repl_policy c = CACHE_REPLACEMENTPOLICY_LRU then touch_mru c k i else c, i)
  | none =>
    if repl_policy c = CACHE_REPLACEMENTPOLICY_LRU then
      let i := (c.sets k).lru_list.headD 0
      (touch_mru c k i, i)
    else if repl_policy c = CACHE_REPLACEMENTPOLICY_MRU then
      ((c, (c.sets k).lru_list.getLastD 0))
    else if repl_policy c = CACHE_REPLACEMENTPOLICY_RANDOMIZED_MARKING then
      choose_unmarked_cache_line c k rand
    else
      (c, rand % c.associativity)

/-- The simulation state: the cache plus the byte-addressable backing
memory the addresses point into (the C code reads blocks straight from
the address, so the backing store is the address space itself). -/
structure SimState where
  cache : Cache
  mem : Nat → Nat

/-- Translation of cache_set_add from cache.c: locate a line via
find_available_cache_line, then set its tag, set its valid bit, and
memcpy line_size bytes into its block from the backing memory at the
block-aligned address, address & ~block_offset_mask (bitwise complement
on the 64-bit uintptr_t is XOR with 2^64 - 1).  Note the source neither
clears the dirty bit of the chosen line nor writes its old contents back
to the backing store.  Returns the updated state and the chosen line's
global index. -/
def cache_set_add (st : SimState) (k address tag rand : Nat) : SimState × Nat :=
  let fa := find_available_cache_line st.cache k rand
  let c1 := fa.1
  let g := (c1.sets k).first_index + fa.2
  let line := c1.lines g
  let base := address &&& ((2 ^ 64 - 1) ^^^ c1.block_offset_mask)
  let line1 := { line with
    tag := tag
    is_valid := true
    block := fun x => if x < c1.line_size then st.mem (base + x) else line.block x }
  ({ st with cache := updateLine c1 g line1 }, g)

/-- Increment the access counter (the first step of every access). -/
def acc_inc (c : Cache) : Cache := { c with access_count := c.access_count + 1 }

/-- Increment the miss counter (the first step of every miss path). -/
def miss_inc (c : Cache) : Cache := { c with miss_count := c.miss_count + 1 }

/-- Modelled from the spec (the C cache_read is an unimplemented stub):
increment the access counter, decode the address, and probe the target
set.  On a hit return the word at the block offset (moving the line to
most-recently-used under LRU); on a miss increment the miss counter,
install a line via cache_set_add and return the word from the freshly
filled block.  Returns the updated state and the 64-bit word. -/
def cache_read (st : SimState) (address rand : Nat) : SimState × Nat :=
  let c := acc_inc st.cache
  let k := decode_index c address
  let tag := decode_tag c address
  let off := decode_offset c address
  match cache_set_find_matching_line c k tag with
  | some i =>
    let g := (c.sets k).first_index + i
    let c1 := if repl_policy c = CACHE_REPLACEMENTPOLICY_LRU then touch_mru c k i else c
    ({ st with cache := c1 }, cache_line_retrieve_data (c1.lines g) off)
  | none =>
    let r := cache_set_add { st with cache := miss_inc c } k address tag rand
    (r.1, cache_line_retrieve_data (r.1.cache.lines r.2) off)

/-- Modelled from the spec §4.4: the hit-path write behaviour applied to
the line at global index g.  Under write-back the word is stored only
into the line's block and the line is marked dirty; under write-through
the word is stored into both the line's block and the backing memory at
the address, and the dirty bit is left unchanged. -/
def apply_hit_write (st : SimState) (g address off v : Nat) : SimState :=
  let line := st.cache.lines g
  if is_writeback st.cache then
    { st with cache := (updateLine st.cache g
        { line with block := write_bytes8 line.block off v, is_dirty := true }) }
  else
    { cache := updateLine st.cache g { line with block := write_bytes8 line.block off v }
      mem := write_bytes8 st.mem address v }

/-- Modelled from the spec (the C cache_write is an unimplemented,
optional stub): increment the access counter, decode the address, and
probe the target set.  On a hit apply the hit-path write (moving the line
to most-recently-used under LRU).  On a miss increment the miss counter;
under write-no-allocate write the value straight to backing memory,
bypassing the cache; under write-allocate install a line via
cache_set_add as on a read miss and then apply the hit-path write to the
now-resident line. -/
def cache_write (st : SimState) (address v rand : Nat) : SimState :=
  let c := acc_inc st.cache
  let k := decode_index c address
  let tag := decode_tag c address
  let off := decode_offset c address
  match cache_set_find_matching_line c k tag with
  | some i =>
    let g := (c.sets k).first_index + i
    let c1 := if repl_policy c = CACHE_REPLACEMENTPOLICY_LRU then touch_mru c k i else c
    apply_hit_write { st with cache := c1 } g address off v
  | none =>
    if is_writenoallocate (miss_inc c) then
      { cache := miss_inc c, mem := write_bytes8 st.mem address v }
    else
      let r := cache_set_add { st with cache := miss_inc c } k address tag rand
      apply_hit_write r.1 r.2 address off v

/-- One access of the engine: a read or a write. -/
inductive CacheOp where
  | read (address rand : Nat)
  | write (address value rand : Nat)

/-- Apply one access to the simulation state. -/
def cache_step (st : SimState) : CacheOp → SimState
  | CacheOp.read a r => (cache_read st a r).1
  | CacheOp.write a v r => cache_write st a v r

/-- Run a sequence of accesses from a starting state. -/
def run_ops (st : SimState) : List CacheOp → SimState
  | [] => st
  | op :: rest => run_ops (cache_step st op) rest

/-- The C shift-down loop of cache_line_make_mru removes exactly the first
occurrence of line_index, keeping the other entries in their relative
order, and appends line_index at the end. -/
theorem make_mru_eq_erase_append (li : Nat) :
    ∀ lru : List Nat, li ∈ lru →
      cache_line_make_mru lru li = lru.erase li ++ [li] := by
  intro lru h
  induction lru with
  | nil => cases h
  | cons a l ih =>
    rcases eq_or_ne a li with rfl | ha
    · simp [cache_line_make_mru, List.findIdx_cons]
    · have h' : li ∈ l := by
        rcases List.mem_cons.mp h with h1 | h1
        · exact absurd h1.symm ha
        · exact h1
      have hb : (a == li) = false := beq_eq_false_iff_ne.mpr ha
      have ht : (l.erase li) ++ [li] =
          l.take (l.findIdx fun x => x == li) ++
            l.drop ((l.findIdx fun x => x == li) + 1) ++ [li] :=
        (ih h').symm
      rw [List.erase_cons_tail (by simp [hb])]
      simp only [cache_line_make_mru, List.findIdx_cons, hb, cond_false,
        List.take_succ_cons, List.drop_succ_cons, List.cons_append]
      simp only [cache_line_make_mru] at ht
      rw [← ht]

/-- C7: on a recency list that is a permutation of 0, ..., associativity-1
and contains line_index, cache_line_make_mru removes line_index from its
current position, shifts the later entries down preserving their relative
order (so the result is the erase of line_index followed by line_index),
and the result is again a permutation of 0, ..., associativity-1 whose
last element is line_index. -/
theorem C7_make_mru_spec (associativity li : Nat) (lru : List Nat)
    (hperm : lru.Perm (List.range associativity)) (hmem : li ∈ lru) :
    cache_line_make_mru lru li = lru.erase li ++ [li] ∧
    (cache_line_make_mru lru li).Perm (List.range associativity) ∧
    (cache_line_make_mru lru li).getLast? = some li := by
  have he := make_mru_eq_erase_append li lru hmem
  refine ⟨he, ?_, ?_⟩
  · rw [he]
    exact ((List.perm_append_singleton li (lru.erase li)).trans
      (List.perm_cons_erase hmem).symm).trans hperm
  · rw [he]
    exact List.getLast?_concat (lru.erase li)

/-- C7 witness: the statement evaluated on the concrete recency list
[0, 1, 2, 3] with line index 1. -/
theorem C7_make_mru_spec_witness :
    cache_line_make_mru [0, 1, 2, 3] 1 = ([0, 1, 2, 3] : List Nat).erase 1 ++ [1] ∧
    (cache_line_make_mru [0, 1, 2, 3] 1).Perm (List.range 4) ∧
    (cache_line_make_mru [0, 1, 2, 3] 1).getLast? = some 1 :=
  C7_make_mru_spec 4 1 [0, 1, 2, 3] (by decide) (by decide)

/-- Counter preservation: unmark_all changes no counter. -/
theorem unmark_all_access_count (c : Cache) (k : Nat) :
    (unmark_all c k).access_count = c.access_count := rfl

/-- Counter preservation: unmark_all changes no counter. -/
theorem unmark_all_miss_count (c : Cache) (k : Nat) :
    (unmark_all c k).miss_count = c.miss_count := rfl

/-- Counter preservation: mark_line changes no counter. -/
theorem mark_line_access_count (c : Cache) (k i : Nat) :
    (mark_line c k i).access_count = c.access_count := rfl

/-- Counter preservation: mark_line changes no counter. -/
theorem mark_line_miss_count (c : Cache) (k i : Nat) :
    (mark_line c k i).miss_count = c.miss_count := rfl

/-- Counter preservation: touch_mru changes no counter. -/
theorem touch_mru_access_count (c : Cache) (k i : Nat) :
    (touch_mru c k i).access_count = c.access_count := rfl

/-- Counter preservation: touch_mru changes no counter. -/
theorem touch_mru_miss_count (c : Cache) (k i : Nat) :
    (touch_mru c k i).miss_count = c.miss_count := rfl

/-- Counter preservation: choose_unmarked_cache_line changes no counter. -/
theorem choose_unmarked_access_count (c : Cache) (k r : Nat) :
    (choose_unmarked_cache_line c k r).1.access_count = c.access_count := by
  unfold choose_unmarked_cache_line
  dsimp only
  split <;> rfl

/-- Counter preservation: choose_unmarked_cache_line changes no counter. -/
theorem choose_unmarked_miss_count (c : Cache) (k r : Nat) :
    (choose_unmarked_cache_line c k r).1.miss_count = c.miss_count := by
  unfold choose_unmarked_cache_line
  dsimp only
  split <;> rfl

/-- Counter preservation: find_available_cache_line changes no counter. -/
theorem find_available_access_count (c : Cache) (k r : Nat) :
    (find_available_cache_line c k r).1.access_count = c.access_count := by
  unfold find_available_cache_line
  dsimp only
  split
  · split <;> rfl
  · split
    · rfl
    · split
      · rfl
      · split
        · exact choose_unmarked_access_count c k r
        · rfl

/-- Counter preservation: find_available_cache_line changes no counter. -/
theorem find_available_miss_count (c : Cache) (k r : Nat) :
    (find_available_cache_line c k r).1.miss_count = c.miss_count := by
  unfold find_available_cache_line
  dsimp only
  split
  · split <;> rfl
  · split
    · rfl
    · split
      · rfl
      · split
        · exact choose_unmarked_miss_count c k r
        · rfl

/-- Counter preservation: cache_set_add changes no counter. -/
theorem cache_set_add_access_count (st : SimState) (k a t r : Nat) :
    ((cache_set_add st k a t r).1).cache.access_count = st.cache.access_count := by
  unfold cache_set_add
  simpa [updateLine] using find_available_access_count st.cache k r

/-- Counter preservation: cache_set_add changes no counter. -/
theorem cache_set_add_miss_count (st : SimState) (k a t r : Nat) :
    ((cache_set_add st k a t r).1).cache.miss_count = st.cache.miss_count := by
  unfold cache_set_add
  simpa [updateLine] using find_available_miss_count st.cache k r

/-- Counter preservation: the hit-path write changes no counter. -/
theorem apply_hit_write_access_count (st : SimState) (g a off v : Nat) :
    (apply_hit_write st g a off v).cache.access_count = st.cache.access_count := by
  unfold apply_hit_write
  split <;> rfl

/-- Counter preservation: the hit-path write changes no counter. -/
theorem apply_hit_write_miss_count (st : SimState) (g a off v : Nat) :
    (apply_hit_write st g a off v).cache.miss_count = st.cache.miss_count := by
  unfold apply_hit_write
  split <;> rfl

/-- A read increments the access counter by exactly one. -/
theorem cache_read_access_count (st : SimState) (a r : Nat) :
    ((cache_read st a r).1).cache.access_count = st.cache.access_count + 1 := by
  unfold cache_read
  dsimp only
  split
  · split <;> rfl
  · rw [cache_set_add_access_count]
    rfl

/-- A read leaves the miss counter unchanged or increments it by one. -/
theorem cache_read_miss_count (st : SimState) (a r : Nat) :
    ((cache_read st a r).1).cache.miss_count = st.cache.miss_count ∨
    ((cache_read st a r).1).cache.miss_count = st.cache.miss_count + 1 := by
  unfold cache_read
  dsimp only
  split
  · left
    split <;> rfl
  · right
    rw [cache_set_add_miss_count]
    rfl

/-- A write increments the access counter by exactly one. -/
theorem cache_write_access_count (st : SimState) (a v r : Nat) :
    (cache_write st a v r).cache.access_count = st.cache.access_count + 1 := by
  unfold cache_write
  dsimp only
  split
  · rw [apply_hit_write_access_count]
    split <;> rfl
  · split
    · rfl
    · rw [apply_hit_write_access_count, cache_set_add_access_count]
      rfl

/-- A write leaves the miss counter unchanged or increments it by one. -/
theorem cache_write_miss_count (st : SimState) (a v r : Nat) :
    (cache_write st a v r).cache.miss_count = st.cache.miss_count ∨
    (cache_write st a v r).cache.miss_count = st.cache.miss_count + 1 := by
  unfold cache_write
  dsimp only
  split
  · left
    rw [apply_hit_write_miss_count]
    split <;> rfl
  · right
    split
    · rfl
    · rw [apply_hit_write_miss_count, cache_set_add_miss_count]
      rfl

/-- Per-step counter deltas: one access, at most one miss. -/
theorem cache_step_counts (st : SimState) (op : CacheOp) :
    (cache_step st op).cache.access_count = st.cache.access_count + 1 ∧
    ((cache_step st op).cache.miss_count = st.cache.miss_count ∨
      (cache_step st op).cache.miss_count = st.cache.miss_count + 1) := by
  cases op with
  | read a r => exact ⟨cache_read_access_count st a r, cache_read_miss_count st a r⟩
  | write a v r => exact ⟨cache_write_access_count st a v r, cache_write_miss_count st a v r⟩

/-- The counter invariant miss_count ≤ access_count is preserved by any
sequence of accesses. -/
theorem run_ops_miss_le_access (ops : List CacheOp) :
    ∀ st : SimState, st.cache.miss_count ≤ st.cache.access_count →
      (run_ops st ops).cache.miss_count ≤ (run_ops st ops).cache.access_count := by
  induction ops with
  | nil => exact fun st h => h
  | cons op rest ih =>
    intro st h
    have hs := cache_step_counts st op
    exact ih (cache_step st op) (by omega)

/-- C3: every cache_write increments access_count by exactly one and
miss_count by zero or one; every cache_read does the same; and running
any sequence of reads and writes on a freshly constructed cache keeps
access_count at or above miss_count (both start at zero and never
decrease since each step only adds). -/
theorem C3_counter_invariant :
    (∀ (st : SimState) (a v r : Nat),
      (cache_write st a v r).cache.access_count = st.cache.access_count + 1 ∧
      ((cache_write st a v r).cache.miss_count = st.cache.miss_count ∨
        (cache_write st a v r).cache.miss_count = st.cache.miss_count + 1)) ∧
    (∀ (st : SimState) (a r : Nat),
      ((cache_read st a r).1).cache.access_count = st.cache.access_count + 1 ∧
      (((cache_read st a r).1).cache.miss_count = st.cache.miss_count ∨
        ((cache_read st a r).1).cache.miss_count = st.cache.miss_count + 1)) ∧
    (∀ (nb bs a p : Nat) (mem : Nat → Nat) (ops : List CacheOp),
      (run_ops ⟨cache_new nb bs a p, mem⟩ ops).cache.miss_count ≤
        (run_ops ⟨cache_new nb bs a p, mem⟩ ops).cache.access_count) :=
  ⟨fun st a v r => ⟨cache_write_access_count st a v r, cache_write_miss_count st a v r⟩,
    fun st a r => ⟨cache_read_access_count st a r, cache_read_miss_count st a r⟩,
    fun nb bs a p mem ops => run_ops_miss_le_access ops ⟨cache_new nb bs a p, mem⟩ (Nat.le_refl 0)⟩

/-- Pointwise description of unmark_lines: the marked bit of the lines at
indices fi .. fi+n-1 is cleared, everything else is untouched. -/
theorem unmark_lines_apply (lines : Nat → CacheLine) (fi : Nat) :
    ∀ n j, unmark_lines lines fi n j =
      if fi ≤ j ∧ j < fi + n then { lines j with is_marked := false } else lines j := by
  intro n
  induction n with
  | zero =>
    intro j
    rw [if_neg (by omega)]
    rfl
  | succ n ih =>
    intro j
    simp only [unmark_lines]
    by_cases hj : j = fi + n
    · subst hj
      rw [if_pos rfl, ih, if_neg (by omega), if_pos (by omega)]
    · rw [if_neg hj, ih]
      by_cases hc : fi ≤ j ∧ j < fi + n
      · rw [if_pos hc, if_pos (by omega)]
      · rw [if_neg hc, if_neg (by omega)]

/-- Pointwise description of mark_line on the line array. -/
theorem mark_line_lines (c : Cache) (k i j : Nat) :
    (mark_line c k i).lines j =
      if j = (c.sets k).first_index + i
      then { c.lines ((c.sets k).first_index + i) with is_marked := true }
      else c.lines j := rfl

/-- The marked counter of the target set after mark_line. -/
theorem mark_line_num_marked (c : Cache) (k i : Nat) :
    ((mark_line c k i).sets k).num_marked = (c.sets k).num_marked + 1 := by
  simp [mark_line, updateSet, updateLine]

/-- mark_line does not move any set's first line index. -/
theorem mark_line_first_index (c : Cache) (k i j : Nat) :
    ((mark_line c k i).sets j).first_index = (c.sets j).first_index := by
  by_cases h : j = k <;> simp [mark_line, updateSet, updateLine, h]

/-- The marked counter of the target set after unmark_all is 0. -/
theorem unmark_all_num_marked (c : Cache) (k : Nat) :
    ((unmark_all c k).sets k).num_marked = 0 := by
  simp [unmark_all]

/-- unmark_all does not move any set's first line index. -/
theorem unmark_all_first_index (c : Cache) (k j : Nat) :
    ((unmark_all c k).sets j).first_index = (c.sets j).first_index := by
  by_cases h : j = k <;> simp [unmark_all, h]

/-- unmark_all keeps the associativity. -/
theorem unmark_all_associativity (c : Cache) (k : Nat) :
    (unmark_all c k).associativity = c.associativity := rfl

/-- unmark_all's line array is unmark_lines of the original. -/
theorem unmark_all_lines (c : Cache) (k : Nat) :
    (unmark_all c k).lines =
      unmark_lines c.lines (c.sets k).first_index c.associativity := rfl

/-- Characterization of choose_unmarked_cache_line when every line of the
set is marked. -/
theorem choose_unmarked_eq_all_marked (c : Cache) (k r : Nat)
    (h : (unmarked_list c k).length = 0) :
    choose_unmarked_cache_line c k r =
      (mark_line (unmark_all c k) k (r % c.associativity), r % c.associativity) := by
  unfold choose_unmarked_cache_line
  dsimp only
  rw [if_pos h]

/-- Characterization of choose_unmarked_cache_line when some line of the
set is unmarked. -/
theorem choose_unmarked_eq_some_unmarked (c : Cache) (k r : Nat)
    (h : ¬(unmarked_list c k).length = 0) :
    choose_unmarked_cache_line c k r =
      (mark_line c k ((unmarked_list c k).getD (r % (unmarked_list c k).length) 0),
        (unmarked_list c k).getD (r % (unmarked_list c k).length) 0) := by
  unfold choose_unmarked_cache_line
  dsimp only
  rw [if_neg h]

/-- The index chosen from a nonempty unmarked list is in the list. -/
theorem unmarked_list_getD_mem (c : Cache) (k r : Nat)
    (h : ¬(unmarked_list c k).length = 0) :
    (unmarked_list c k).getD (r % (unmarked_list c k).length) 0 ∈ unmarked_list c k := by
  have hl : r % (unmarked_list c k).length < (unmarked_list c k).length :=
    Nat.mod_lt _ (Nat.pos_of_ne_zero h)
  rw [List.getD_eq_getElem _ _ hl]
  exact List.getElem_mem hl

/-- Membership in the unmarked list means: a set-local index whose line is
unmarked. -/
theorem unmarked_list_mem (c : Cache) (k i : Nat) :
    i ∈ unmarked_list c k ↔
      i < c.associativity ∧
        (c.lines ((c.sets k).first_index + i)).is_marked = false := by
  unfold unmarked_list
  rw [List.mem_filter, List.mem_range]
  simp

/-- C8: choose_unmarked_cache_line always returns a set-local index below
the associativity; when some line of the set is unmarked, the chosen line
was unmarked at the start of the call and is marked afterwards; when every
line of the set was marked, all lines of the set are first unmarked (the
set's marked counter being reset to 0 by unmark_all), and afterwards the
chosen line is the only marked line of the set and the set's marked
counter is 1. -/
theorem C8_choose_unmarked_spec (c : Cache) (k r : Nat)
    (hassoc : 0 < c.associativity) :
    (choose_unmarked_cache_line c k r).2 < c.associativity ∧
    ((∃ j, j < c.associativity ∧
        (c.lines ((c.sets k).first_index + j)).is_marked = false) →
      ((c.lines ((c.sets k).first_index + (choose_unmarked_cache_line c k r).2)).is_marked
          = false ∧
        (((choose_unmarked_cache_line c k r).1).lines
          ((c.sets k).first_index + (choose_unmarked_cache_line c k r).2)).is_marked
          = true)) ∧
    ((∀ j, j < c.associativity →
        (c.lines ((c.sets k).first_index + j)).is_marked = true) →
      ((((choose_unmarked_cache_line c k r).1).lines
          ((c.sets k).first_index + (choose_unmarked_cache_line c k r).2)).is_marked
          = true ∧
        (∀ j, j < c.associativity → j ≠ (choose_unmarked_cache_line c k r).2 →
          (((choose_unmarked_cache_line c k r).1).lines
            ((c.sets k).first_index + j)).is_marked = false) ∧
        (((choose_unmarked_cache_line c k r).1).sets k).num_marked = 1 ∧
        ((unmark_all c k).sets k).num_marked = 0)) := by
  by_cases hlen : (unmarked_list c k).length = 0
  · rw [choose_unmarked_eq_all_marked c k r hlen]
    dsimp only
    refine ⟨Nat.mod_lt _ hassoc, ?_, ?_⟩
    · rintro ⟨j, hj, hum⟩
      exfalso
      have hmem : j ∈ unmarked_list c k := (unmarked_list_mem c k j).mpr ⟨hj, hum⟩
      rw [List.length_eq_zero] at hlen
      rw [hlen] at hmem
      cases hmem
    · intro _
      refine ⟨?_, ?_, ?_, unmark_all_num_marked c k⟩
      · rw [mark_line_lines, unmark_all_first_index, if_pos rfl]
      · intro j hj hne
        rw [mark_line_lines, unmark_all_first_index,
          if_neg (by omega), unmark_all_lines, unmark_lines_apply,
          if_pos (by omega)]
      · rw [mark_line_num_marked, unmark_all_num_marked]
  · rw [choose_unmarked_eq_some_unmarked c k r hlen]
    dsimp only
    have hmem := unmarked_list_getD_mem c k r hlen
    obtain ⟨hlt, hum⟩ := (unmarked_list_mem c k _).mp hmem
    refine ⟨hlt, ?_, ?_⟩
    · intro _
      refine ⟨hum, ?_⟩
      rw [mark_line_lines, if_pos rfl]
    · intro hall
      exact absurd (hall _ hlt) (by rw [hum]; exact Bool.false_ne_true)

/-- C8 witness: the statement evaluated on a freshly constructed
RANDOMIZED_MARKING cache (policy byte 16), set 0, random value 0, where
line 0 of the set is initially unmarked. -/
theorem C8_choose_unmarked_spec_witness :
    (choose_unmarked_cache_line (cache_new 256 16 2 16) 0 0).2 <
      (cache_new 256 16 2 16).associativity ∧
    (((cache_new 256 16 2 16).lines
        (((cache_new 256 16 2 16).sets 0).first_index +
          (choose_unmarked_cache_line (cache_new 256 16 2 16) 0 0).2)).is_marked = false ∧
      (((choose_unmarked_cache_line (cache_new 256 16 2 16) 0 0).1).lines
        (((cache_new 256 16 2 16).sets 0).first_index +
          (choose_unmarked_cache_line (cache_new 256 16 2 16) 0 0).2)).is_marked = true) :=
  ⟨(C8_choose_unmarked_spec (cache_new 256 16 2 16) 0 0 (by decide)).1,
    (C8_choose_unmarked_spec (cache_new 256 16 2 16) 0 0 (by decide)).2.1
      ⟨0, by decide, by decide⟩⟩

/-- Equality of the replacement-irrelevant fields of two cache lines: the
victim-selection helpers may only change recency and marking state, never
validity, tag, block contents or dirtiness. -/
def line_core_eq (l1 l2 : CacheLine) : Prop :=
  l1.is_valid = l2.is_valid ∧ l1.tag = l2.tag ∧ l1.block = l2.block ∧
    l1.is_dirty = l2.is_dirty

/-- line_core_eq is reflexive. -/
theorem line_core_eq_refl (l : CacheLine) : line_core_eq l l := ⟨rfl, rfl, rfl, rfl⟩

/-- line_core_eq is transitive. -/
theorem line_core_eq_trans {a b c : CacheLine} (h1 : line_core_eq a b)
    (h2 : line_core_eq b c) : line_core_eq a c :=
  ⟨h1.1.trans h2.1, h1.2.1.trans h2.2.1, h1.2.2.1.trans h2.2.2.1,
    h1.2.2.2.trans h2.2.2.2⟩

/-- Equality of the geometry and policy fields of two caches. -/
def geom_eq (c1 c2 : Cache) : Prop :=
  c1.block_offset_mask = c2.block_offset_mask ∧
  c1.cache_index_mask = c2.cache_index_mask ∧
  c1.cache_index_shift = c2.cache_index_shift ∧
  c1.tag_mask = c2.tag_mask ∧ c1.tag_shift = c2.tag_shift ∧
  c1.line_size = c2.line_size ∧ c1.associativity = c2.associativity ∧
  c1.policies = c2.policies

/-- touch_mru leaves the line array untouched. -/
theorem touch_mru_lines (c : Cache) (k i : Nat) : (touch_mru c k i).lines = c.lines :=
  rfl

/-- touch_mru does not move any set's first line index. -/
theorem touch_mru_first_index (c : Cache) (k i j : Nat) :
    ((touch_mru c k i).sets j).first_index = (c.sets j).first_index := by
  by_cases h : j = k <;> simp [touch_mru, updateSet, h]

/-- mark_line keeps every line's core fields. -/
theorem mark_line_line_core (c : Cache) (k i j : Nat) :
    line_core_eq ((mark_line c k i).lines j) (c.lines j) := by
  rw [mark_line_lines]
  by_cases h : j = (c.sets k).first_index + i
  · rw [if_pos h, h]
    exact ⟨rfl, rfl, rfl, rfl⟩
  · rw [if_neg h]
    exact line_core_eq_refl _

/-- unmark_all keeps every line's core fields. -/
theorem unmark_all_line_core (c : Cache) (k j : Nat) :
    line_core_eq ((unmark_all c k).lines j) (c.lines j) := by
  rw [unmark_all_lines, unmark_lines_apply]
  by_cases hc : (c.sets k).first_index ≤ j ∧
      j < (c.sets k).first_index + c.associativity
  · rw [if_pos hc]
    exact ⟨rfl, rfl, rfl, rfl⟩
  · rw [if_neg hc]
    exact line_core_eq_refl _

/-- choose_unmarked_cache_line keeps geometry, line cores and set first
indices. -/
theorem choose_unmarked_preserves (c : Cache) (k r : Nat) :
    geom_eq (choose_unmarked_cache_line c k r).1 c ∧
    (∀ j, line_core_eq ((choose_unmarked_cache_line c k r).1.lines j) (c.lines j)) ∧
    (∀ j, ((choose_unmarked_cache_line c k r).1.sets j).first_index =
      (c.sets j).first_index) := by
  by_cases h : (unmarked_list c k).length = 0
  · rw [choose_unmarked_eq_all_marked c k r h]
    dsimp only
    refine ⟨⟨rfl, rfl, rfl, rfl, rfl, rfl, rfl, rfl⟩, ?_, ?_⟩
    · intro j
      exact line_core_eq_trans (mark_line_line_core _ k _ j) (unmark_all_line_core c k j)
    · intro j
      rw [mark_line_first_index, unmark_all_first_index]
  · rw [choose_unmarked_eq_some_unmarked c k r h]
    dsimp only
    exact ⟨⟨rfl, rfl, rfl, rfl, rfl, rfl, rfl, rfl⟩,
      fun j => mark_line_line_core c k _ j, fun j => mark_line_first_index c k _ j⟩

/-- find_available_cache_line keeps geometry, line cores and set first
indices: victim selection only changes recency and marking state. -/
theorem find_available_preserves (c : Cache) (k r : Nat) :
    geom_eq (find_available_cache_line c k r).1 c ∧
    (∀ j, line_core_eq ((find_available_cache_line c k r).1.lines j) (c.lines j)) ∧
    (∀ j, ((find_available_cache_line c k r).1.sets j).first_index =
      (c.sets j).first_index) := by
  unfold find_available_cache_line
  dsimp only
  split
  · split
    · exact ⟨⟨rfl, rfl, rfl, rfl, rfl, rfl, rfl, rfl⟩,
        fun j => line_core_eq_refl _, fun j => touch_mru_first_index c k _ j⟩
    · exact ⟨⟨rfl, rfl, rfl, rfl, rfl, rfl, rfl, rfl⟩,
        fun j => line_core_eq_refl _, fun j => rfl⟩
  · split
    · exact ⟨⟨rfl, rfl, rfl, rfl, rfl, rfl, rfl, rfl⟩,
        fun j => line_core_eq_refl _, fun j => touch_mru_first_index c k _ j⟩
    · split
      · exact ⟨⟨rfl, rfl, rfl, rfl, rfl, rfl, rfl, rfl⟩,
          fun j => line_core_eq_refl _, fun j => rfl⟩
      · split
        · exact choose_unmarked_preserves c k r
        · exact ⟨⟨rfl, rfl, rfl, rfl, rfl, rfl, rfl, rfl⟩,
            fun j => line_core_eq_refl _, fun j => rfl⟩

/-- Pointwise description of updateLine. -/
theorem updateLine_lines_apply (c : Cache) (g : Nat) (l : CacheLine) (j : Nat) :
    (updateLine c g l).lines j = if j = g then l else c.lines j := rfl

/-- Central description of cache_set_add: the returned index is the chosen
global line index; the backing memory is untouched; geometry and set first
indices are kept; every other line keeps its core fields; and the chosen
line gets the new tag, becomes valid, keeps its old dirty bit (the source
does not reset it), and its first line_size block bytes are copied from
the backing memory at the block-aligned address. -/
theorem cache_set_add_spec (st : SimState) (k a t r : Nat) :
    (cache_set_add st k a t r).2 =
      ((find_available_cache_line st.cache k r).1.sets k).first_index +
        (find_available_cache_line st.cache k r).2 ∧
    (cache_set_add st k a t r).1.mem = st.mem ∧
    geom_eq (cache_set_add st k a t r).1.cache st.cache ∧
    (∀ j, ((cache_set_add st k a t r).1.cache.sets j).first_index =
      (st.cache.sets j).first_index) ∧
    (∀ j, ((cache_set_add st k a t r).1.cache.sets j).lru_list =
      ((find_available_cache_line st.cache k r).1.sets j).lru_list) ∧
    (∀ j, j ≠ ((find_available_cache_line st.cache k r).1.sets k).first_index +
        (find_available_cache_line st.cache k r).2 →
      line_core_eq ((cache_set_add st k a t r).1.cache.lines j) (st.cache.lines j)) ∧
    ((cache_set_add st k a t r).1.cache.lines
      (((find_available_cache_line st.cache k r).1.sets k).first_index +
        (find_available_cache_line st.cache k r).2)).tag = t ∧
    ((cache_set_add st k a t r).1.cache.lines
      (((find_available_cache_line st.cache k r).1.sets k).first_index +
        (find_available_cache_line st.cache k r).2)).is_valid = true ∧
    ((cache_set_add st k a t r).1.cache.lines
      (((find_available_cache_line st.cache k r).1.sets k).first_index +
        (find_available_cache_line st.cache k r).2)).is_dirty =
      (st.cache.lines
        (((find_available_cache_line st.cache k r).1.sets k).first_index +
          (find_available_cache_line st.cache k r).2)).is_dirty ∧
    (∀ x, x < st.cache.line_size →
      ((cache_set_add st k a t r).1.cache.lines
        (((find_available_cache_line st.cache k r).1.sets k).first_index +
          (find_available_cache_line st.cache k r).2)).block x
        = st.mem ((a &&& ((2 ^ 64 - 1) ^^^ st.cache.block_offset_mask)) + x)) := by
  obtain ⟨hg, hl, hf⟩ := find_available_preserves st.cache k r
  unfold cache_set_add
  dsimp only
  refine ⟨rfl, rfl,
    ⟨hg.1, hg.2.1, hg.2.2.1, hg.2.2.2.1, hg.2.2.2.2.1, hg.2.2.2.2.2.1,
      hg.2.2.2.2.2.2.1, hg.2.2.2.2.2.2.2⟩,
    hf, fun j => rfl, ?_, ?_, ?_, ?_, ?_⟩
  · intro j hj
    rw [updateLine_lines_apply, if_neg hj]
    exact hl j
  · rw [updateLine_lines_apply, if_pos rfl]
  · rw [updateLine_lines_apply, if_pos rfl]
  · rw [updateLine_lines_apply, if_pos rfl]
    exact (hl _).2.2.2
  · intro x hx
    rw [updateLine_lines_apply, if_pos rfl]
    dsimp only
    rw [if_pos (hg.2.2.2.2.2.1 ▸ hx), hg.1]

/-- Unfolding of cache_read on a miss: the result is the cache_set_add
installation performed on the counter-bumped state, and the returned word
comes from the freshly installed line. -/
theorem cache_read_miss_run (st : SimState) (a r : Nat)
    (hmiss : cache_set_find_matching_line (acc_inc st.cache)
      (decode_index (acc_inc st.cache) a) (decode_tag (acc_inc st.cache) a) = none) :
    cache_read st a r =
      ((cache_set_add ⟨miss_inc (acc_inc st.cache), st.mem⟩
          (decode_index (acc_inc st.cache) a) a (decode_tag (acc_inc st.cache) a) r).1,
        cache_line_retrieve_data
          ((cache_set_add ⟨miss_inc (acc_inc st.cache), st.mem⟩
              (decode_index (acc_inc st.cache) a) a
              (decode_tag (acc_inc st.cache) a) r).1.cache.lines
            (cache_set_add ⟨miss_inc (acc_inc st.cache), st.mem⟩
              (decode_index (acc_inc st.cache) a) a
              (decode_tag (acc_inc st.cache) a) r).2)
          (decode_offset (acc_inc st.cache) a)) := by
  unfold cache_read
  dsimp only
  rw [hmiss]

/-- Unfolding of cache_read on a hit at set-local index i: only the
recency state may change (under LRU), and the returned word comes from the
matched line. -/
theorem cache_read_hit_run (st : SimState) (a r i : Nat)
    (hhit : cache_set_find_matching_line (acc_inc st.cache)
      (decode_index (acc_inc st.cache) a) (decode_tag (acc_inc st.cache) a) = some i) :
    cache_read st a r =
      (⟨if repl_policy (acc_inc st.cache) = CACHE_REPLACEMENTPOLICY_LRU
          then touch_mru (acc_inc st.cache) (decode_index (acc_inc st.cache) a) i
          else acc_inc st.cache, st.mem⟩,
        cache_line_retrieve_data
          ((if repl_policy (acc_inc st.cache) = CACHE_REPLACEMENTPOLICY_LRU
              then touch_mru (acc_inc st.cache) (decode_index (acc_inc st.cache) a) i
              else acc_inc st.cache).lines
            (((acc_inc st.cache).sets (decode_index (acc_inc st.cache) a)).first_index + i))
          (decode_offset (acc_inc st.cache) a)) := by
  unfold cache_read
  dsimp only
  rw [hhit]

/-- Unfolding of cache_write on a hit at set-local index i. -/
theorem cache_write_hit_run (st : SimState) (a v r i : Nat)
    (hhit : cache_set_find_matching_line (acc_inc st.cache)
      (decode_index (acc_inc st.cache) a) (decode_tag (acc_inc st.cache) a) = some i) :
    cache_write st a v r =
      apply_hit_write
        ⟨if repl_policy (acc_inc st.cache) = CACHE_REPLACEMENTPOLICY_LRU
            then touch_mru (acc_inc st.cache) (decode_index (acc_inc st.cache) a) i
            else acc_inc st.cache, st.mem⟩
        (((acc_inc st.cache).sets (decode_index (acc_inc st.cache) a)).first_index + i)
        a (decode_offset (acc_inc st.cache) a) v := by
  unfold cache_write
  dsimp only
  rw [hhit]

/-- Unfolding of cache_write on a write-no-allocate miss: the value goes
straight to backing memory and the cache keeps only the bumped counters. -/
theorem cache_write_miss_noalloc_run (st : SimState) (a v r : Nat)
    (hmiss : cache_set_find_matching_line (acc_inc st.cache)
      (decode_index (acc_inc st.cache) a) (decode_tag (acc_inc st.cache) a) = none)
    (hna : is_writenoallocate (miss_inc (acc_inc st.cache)) = true) :
    cache_write st a v r = ⟨miss_inc (acc_inc st.cache), write_bytes8 st.mem a v⟩ := by
  unfold cache_write
  dsimp only
  rw [hmiss]
  dsimp only
  rw [if_pos hna]

/-- Unfolding of cache_write on a write-allocate miss: a line is installed
as on a read miss and the hit-path write is applied to it. -/
theorem cache_write_miss_alloc_run (st : SimState) (a v r : Nat)
    (hmiss : cache_set_find_matching_line (acc_inc st.cache)
      (decode_index (acc_inc st.cache) a) (decode_tag (acc_inc st.cache) a) = none)
    (hna : is_writenoallocate (miss_inc (acc_inc st.cache)) = false) :
    cache_write st a v r =
      apply_hit_write
        (cache_set_add ⟨miss_inc (acc_inc st.cache), st.mem⟩
          (decode_index (acc_inc st.cache) a) a (decode_tag (acc_inc st.cache) a) r).1
        (cache_set_add ⟨miss_inc (acc_inc st.cache), st.mem⟩
          (decode_index (acc_inc st.cache) a) a (decode_tag (acc_inc st.cache) a) r).2
        a (decode_offset (acc_inc st.cache) a) v := by
  unfold cache_write
  dsimp only
  rw [hmiss]
  dsimp only
  rw [if_neg (by rw [hna]; exact Bool.false_ne_true)]

/-- The global index of the line installed by a read miss. -/
def read_install_index (st : SimState) (a r : Nat) : Nat :=
  (cache_set_add ⟨miss_inc (acc_inc st.cache), st.mem⟩
    (decode_index (acc_inc st.cache) a) a (decode_tag (acc_inc st.cache) a) r).2

/-- C5 amended: on every read miss the installed line gets the decoded tag
of the missed address and becomes valid, and its first line_size block
bytes are copied from backing memory at the block-aligned address
(address & ~block_offset_mask); but its dirty flag is NOT reset: the
source cache_set_add leaves is_dirty exactly as it was on the victim
line. -/
theorem C5_amended_read_miss_install (st : SimState) (a r : Nat)
    (hmiss : cache_set_find_matching_line (acc_inc st.cache)
      (decode_index (acc_inc st.cache) a) (decode_tag (acc_inc st.cache) a) = none) :
    ((cache_read st a r).1.cache.lines (read_install_index st a r)).tag
        = decode_tag st.cache a ∧
    ((cache_read st a r).1.cache.lines (read_install_index st a r)).is_valid = true ∧
    (∀ x, x < st.cache.line_size →
      ((cache_read st a r).1.cache.lines (read_install_index st a r)).block x
        = st.mem ((a &&& ((2 ^ 64 - 1) ^^^ st.cache.block_offset_mask)) + x)) ∧
    ((cache_read st a r).1.cache.lines (read_install_index st a r)).is_dirty
        = (st.cache.lines (read_install_index st a r)).is_dirty := by
  have hrun := cache_read_miss_run st a r hmiss
  obtain ⟨h2, hmem, hgeom, hfi, hlru, hother, htag, hvalid, hdirty, hblock⟩ :=
    cache_set_add_spec ⟨miss_inc (acc_inc st.cache), st.mem⟩
      (decode_index (acc_inc st.cache) a) a (decode_tag (acc_inc st.cache) a) r
  rw [hrun]
  unfold read_install_index
  rw [h2]
  exact ⟨htag, hvalid, hblock, hdirty⟩

/-- A fully specified valid line used to build concrete states. -/
def mk_valid_line (t : Nat) (d : Bool) : CacheLine :=
  { is_valid := true
    is_dirty := d
    is_marked := false
    tag := t
    block := fun _ => 0
    block_base := 0 }

/-- C5 counterexample: a concrete read miss whose LRU victim (line 0) is
dirty.  The cache is 128 bytes, 16-byte lines, associativity 2, LRU +
write-through (policy byte 4); set 0 holds valid lines with tags 0 (dirty)
and 1; reading address 128 (set 0, tag 2) misses and installs over line 0,
whose dirty flag remains true although the claim requires it to be reset
to false (the write policy being write-through dictates nothing else). -/
theorem C5_counterexample_dirty_not_reset :
    ((cache_read ⟨updateLine (updateLine (cache_new 128 16 2 4) 0 (mk_valid_line 0 true)) 1
        (mk_valid_line 1 false), fun _ => 0⟩ 128 0).1.cache.lines 0).tag = 2 ∧
    ((cache_read ⟨updateLine (updateLine (cache_new 128 16 2 4) 0 (mk_valid_line 0 true)) 1
        (mk_valid_line 1 false), fun _ => 0⟩ 128 0).1.cache.lines 0).is_valid = true ∧
    ((cache_read ⟨updateLine (updateLine (cache_new 128 16 2 4) 0 (mk_valid_line 0 true)) 1
        (mk_valid_line 1 false), fun _ => 0⟩ 128 0).1.cache.lines 0).is_dirty = true := by
  decide

/-- C5 witness: the amended statement evaluated on a freshly constructed
cache (every line invalid, so reading address 128 misses), sampling block
byte 3. -/
theorem C5_amended_read_miss_install_witness :
    cache_set_find_matching_line (acc_inc (cache_new 128 16 2 4))
        (decode_index (acc_inc (cache_new 128 16 2 4)) 128)
        (decode_tag (acc_inc (cache_new 128 16 2 4)) 128) = none ∧
    ((cache_read ⟨cache_new 128 16 2 4, fun _ => 9⟩ 128 0).1.cache.lines
        (read_install_index ⟨cache_new 128 16 2 4, fun _ => 9⟩ 128 0)).tag
      = decode_tag (cache_new 128 16 2 4) 128 ∧
    ((cache_read ⟨cache_new 128 16 2 4, fun _ => 9⟩ 128 0).1.cache.lines
        (read_install_index ⟨cache_new 128 16 2 4, fun _ => 9⟩ 128 0)).is_valid = true ∧
    3 < (cache_new 128 16 2 4).line_size ∧
    ((cache_read ⟨cache_new 128 16 2 4, fun _ => 9⟩ 128 0).1.cache.lines
        (read_install_index ⟨cache_new 128 16 2 4, fun _ => 9⟩ 128 0)).block 3 = 9 ∧
    ((cache_read ⟨cache_new 128 16 2 4, fun _ => 9⟩ 128 0).1.cache.lines
        (read_install_index ⟨cache_new 128 16 2 4, fun _ => 9⟩ 128 0)).is_dirty
      = ((cache_new 128 16 2 4).lines
          (read_install_index ⟨cache_new 128 16 2 4, fun _ => 9⟩ 128 0)).is_dirty := by
  refine ⟨by decide, ?_, ?_, by decide, ?_, ?_⟩
  · exact (C5_amended_read_miss_install ⟨cache_new 128 16 2 4, fun _ => 9⟩ 128 0 (by decide)).1
  · exact (C5_amended_read_miss_install ⟨cache_new 128 16 2 4, fun _ => 9⟩ 128 0 (by decide)).2.1
  · exact (C5_amended_read_miss_install ⟨cache_new 128 16 2 4, fun _ => 9⟩ 128 0
      (by decide)).2.2.1 3 (by decide)
  · exact (C5_amended_read_miss_install ⟨cache_new 128 16 2 4, fun _ => 9⟩ 128 0 (by decide)).2.2.2

/-- C6 amended: no write-back exists.  cache_set_add (the line
installation and eviction site) never touches the backing memory, and a
read never touches the backing memory either, so a dirty evicted line's
contents are silently lost instead of being written back. -/
theorem C6_amended_no_writeback (st : SimState) (k a t r a2 r2 : Nat) :
    (cache_set_add st k a t r).1.mem = st.mem ∧
    ((cache_read st a2 r2).1).mem = st.mem := by
  refine ⟨(cache_set_add_spec st k a t r).2.1, ?_⟩
  unfold cache_read
  dsimp only
  split
  · rfl
  · exact (cache_set_add_spec ⟨miss_inc (acc_inc st.cache), st.mem⟩ _ a2 _ r2).2.1

/-- Concrete write-back scenario, initial state: 128-byte cache, 16-byte
lines, associativity 2, LRU + write-back + write-allocate (policy byte 5),
zeroed backing memory. -/
def C6_state0 : SimState := ⟨cache_new 128 16 2 5, fun _ => 0⟩

/-- After writing 7 to address 0 (a write-allocate miss): line 0 of set 0
holds the value, is dirty, and backing memory still holds 0. -/
def C6_state1 : SimState := cache_write C6_state0 0 7 0

/-- After additionally reading addresses 64 and 128 (both set 0): the
second read evicts the dirty line 0 (the LRU victim). -/
def C6_state3 : SimState := (cache_read ((cache_read C6_state1 64 0).1) 128 0).1

/-- C6 counterexample: under write-back (policy byte 5), after writing 7
to address 0, line 0 is dirty and holds the word 7; reading addresses 64
and 128 (same set) then evicts line 0 (its tag becomes 2, the tag of
address 128), yet the word at address 0 in backing memory is still 0, not
7: the modified word is NOT visible in backing memory after eviction,
because cache_set_add overwrites the dirty victim without writing it
back. -/
theorem C6_counterexample_dirty_line_lost :
    (C6_state1.cache.lines 0).is_dirty = true ∧
    read_word64 (C6_state1.cache.lines 0).block 0 = 7 ∧
    (C6_state3.cache.lines 0).tag = 2 ∧
    (C6_state3.cache.lines 0).is_valid = true ∧
    read_word64 C6_state3.mem 0 = 0 ∧ (0 : Nat) ≠ 7 := by
  decide

/-- A byte inside the written window. -/
theorem write_bytes8_at (f : Nat → Nat) (pos v x : Nat) (h1 : pos ≤ x)
    (h2 : x < pos + 8) :
    write_bytes8 f pos v x = (v >>> (8 * (x - pos))) % 256 := by
  unfold write_bytes8
  rw [if_neg (by omega)]

/-- A byte outside the written window. -/
theorem write_bytes8_out (f : Nat → Nat) (pos v x : Nat) (h : x < pos ∨ pos + 8 ≤ x) :
    write_bytes8 f pos v x = f x := by
  unfold write_bytes8
  rw [if_pos h]

/-- Reassembling the eight bytes just written yields the written 64-bit
value. -/
theorem read_word64_write_bytes8 (f : Nat → Nat) (pos v : Nat) (hv : v < 2 ^ 64) :
    read_word64 (write_bytes8 f pos v) pos = v := by
  unfold read_word64
  rw [write_bytes8_at f pos v pos (by omega) (by omega),
    write_bytes8_at f pos v (pos + 1) (by omega) (by omega),
    write_bytes8_at f pos v (pos + 2) (by omega) (by omega),
    write_bytes8_at f pos v (pos + 3) (by omega) (by omega),
    write_bytes8_at f pos v (pos + 4) (by omega) (by omega),
    write_bytes8_at f pos v (pos + 5) (by omega) (by omega),
    write_bytes8_at f pos v (pos + 6) (by omega) (by omega),
    write_bytes8_at f pos v (pos + 7) (by omega) (by omega)]
  simp only [Nat.sub_self, Nat.add_sub_cancel_left, Nat.shiftRight_eq_div_pow]
  norm_num
  omega

/-- The 64-bit complement of a low-bits mask keeps exactly the bits from
position n up to 63: masking with it rounds a 64-bit value down to a
multiple of 2^n. -/
theorem and_not_low_mask (a n : Nat) (ha : a < 2 ^ 64) (hn : n ≤ 64) :
    a &&& ((2 ^ 64 - 1) ^^^ (2 ^ n - 1)) = a - a % 2 ^ n := by
  have h1 : a - a % 2 ^ n = a / 2 ^ n * 2 ^ n := by
    have h0 := Nat.div_add_mod a (2 ^ n)
    rw [Nat.mul_comm (2 ^ n) (a / 2 ^ n)] at h0
    omega
  rw [h1]
  have h2 : a / 2 ^ n * 2 ^ n = (a >>> n) <<< n := by
    rw [Nat.shiftLeft_eq, Nat.shiftRight_eq_div_pow]
  rw [h2]
  apply Nat.eq_of_testBit_eq
  intro i
  rw [Nat.testBit_land, Nat.testBit_xor, Nat.testBit_two_pow_sub_one,
    Nat.testBit_two_pow_sub_one, Nat.testBit_shiftLeft, Nat.testBit_shiftRight]
  by_cases hi : i < n
  · have h64 : i < 64 := by omega
    simp [hi, h64, Nat.not_le.mpr hi]
  · have hge : n ≤ i := Nat.le_of_not_lt hi
    have hni : n + (i - n) = i := by omega
    by_cases hi64 : i < 64
    · simp [hi, hi64, hge, hni]
    · have hbit : a.testBit i = false :=
        Nat.testBit_lt_two_pow
          (lt_of_lt_of_le ha (Nat.pow_le_pow_right (by omega) (by omega)))
      simp [hi, hi64, hge, hni, hbit]

/-- The block-aligned base plus the block offset is the address itself
(for a 64-bit address and a low-bits offset mask). -/
theorem base_add_offset (a n : Nat) (ha : a < 2 ^ 64) (hn : n ≤ 64) :
    (a &&& ((2 ^ 64 - 1) ^^^ (2 ^ n - 1))) + (a &&& (2 ^ n - 1)) = a := by
  rw [and_not_low_mask a n ha hn, Nat.and_pow_two_sub_one_eq_mod]
  have := Nat.mod_le a (2 ^ n)
  omega

/-- find? only depends on the predicate's values on the list. -/
theorem find?_congr_list {p q : Nat → Bool} :
    ∀ l : List Nat, (∀ x ∈ l, p x = q x) → l.find? p = l.find? q := by
  intro l
  induction l with
  | nil => intro _; rfl
  | cons a t ih =>
    intro h
    rw [List.find?_cons, List.find?_cons, h a (List.mem_cons_self a t)]
    cases hq : q a
    · exact ih fun x hx => h x (List.mem_cons_of_mem a hx)
    · rfl

/-- find? over an initial range returns the unique index satisfying the
predicate. -/
theorem find?_range_unique : ∀ (n : Nat) (p : Nat → Bool) (i : Nat), i < n →
    p i = true → (∀ j, j < n → j ≠ i → p j = false) →
    (List.range n).find? p = some i := by
  intro n
  induction n with
  | zero => intro p i hi; exact absurd hi (Nat.not_lt_zero i)
  | succ n ih =>
    intro p i hi hp ho
    rw [List.range_succ, List.find?_append]
    by_cases hin : i < n
    · rw [ih p i hin hp fun j hj hne => ho j (Nat.lt_succ_of_lt hj) hne]
      rfl
    · have hieq : i = n := by omega
      have hnone : (List.range n).find? p = none := by
        rw [List.find?_eq_none]
        intro x hx
        have hxlt := List.mem_range.mp hx
        rw [ho x (Nat.lt_succ_of_lt hxlt) (by omega)]
        exact Bool.false_ne_true
      rw [hnone, hieq]
      rw [hieq] at hp
      simp [List.find?, hp]

/-- geom_eq is transitive. -/
theorem geom_eq_trans {c1 c2 c3 : Cache} (h1 : geom_eq c1 c2) (h2 : geom_eq c2 c3) :
    geom_eq c1 c3 :=
  ⟨h1.1.trans h2.1, h1.2.1.trans h2.2.1, h1.2.2.1.trans h2.2.2.1,
    h1.2.2.2.1.trans h2.2.2.2.1, h1.2.2.2.2.1.trans h2.2.2.2.2.1,
    h1.2.2.2.2.2.1.trans h2.2.2.2.2.2.1, h1.2.2.2.2.2.2.1.trans h2.2.2.2.2.2.2.1,
    h1.2.2.2.2.2.2.2.trans h2.2.2.2.2.2.2.2⟩

/-- Caches with equal geometry decode addresses identically. -/
theorem decode_eq_of_geom {c1 c2 : Cache} (h : geom_eq c1 c2) (a : Nat) :
    decode_index c1 a = decode_index c2 a ∧ decode_tag c1 a = decode_tag c2 a ∧
      decode_offset c1 a = decode_offset c2 a := by
  unfold decode_index decode_tag decode_offset
  rw [h.1, h.2.1, h.2.2.1, h.2.2.2.1, h.2.2.2.2.1]
  exact ⟨rfl, rfl, rfl⟩

/-- Effect of the hit-path write on the cache: only the line at g changes,
and there only the block (the written bytes) and possibly the dirty bit;
its validity and tag survive, and all sets survive. -/
theorem apply_hit_write_spec (st : SimState) (g a off v : Nat) :
    geom_eq (apply_hit_write st g a off v).cache st.cache ∧
    (∀ j, (apply_hit_write st g a off v).cache.sets j = st.cache.sets j) ∧
    (∀ j, j ≠ g → (apply_hit_write st g a off v).cache.lines j = st.cache.lines j) ∧
    ((apply_hit_write st g a off v).cache.lines g).is_valid
      = (st.cache.lines g).is_valid ∧
    ((apply_hit_write st g a off v).cache.lines g).tag = (st.cache.lines g).tag ∧
    ((apply_hit_write st g a off v).cache.lines g).block
      = write_bytes8 (st.cache.lines g).block off v := by
  unfold apply_hit_write
  dsimp only
  split
  · refine ⟨⟨rfl, rfl, rfl, rfl, rfl, rfl, rfl, rfl⟩, fun j => rfl, ?_, ?_, ?_, ?_⟩
    · intro j hj
      rw [updateLine_lines_apply, if_neg hj]
    · rw [updateLine_lines_apply, if_pos rfl]
    · rw [updateLine_lines_apply, if_pos rfl]
    · rw [updateLine_lines_apply, if_pos rfl]
  · refine ⟨⟨rfl, rfl, rfl, rfl, rfl, rfl, rfl, rfl⟩, fun j => rfl, ?_, ?_, ?_, ?_⟩
    · intro j hj
      rw [updateLine_lines_apply, if_neg hj]
    · rw [updateLine_lines_apply, if_pos rfl]
    · rw [updateLine_lines_apply, if_pos rfl]
    · rw [updateLine_lines_apply, if_pos rfl]

/-- The local index chosen by choose_unmarked_cache_line is below the
associativity. -/
theorem choose_unmarked_idx_lt (c : Cache) (k r : Nat) (hassoc : 0 < c.associativity) :
    (choose_unmarked_cache_line c k r).2 < c.associativity := by
  by_cases h : (unmarked_list c k).length = 0
  · rw [choose_unmarked_eq_all_marked c k r h]
    exact Nat.mod_lt _ hassoc
  · rw [choose_unmarked_eq_some_unmarked c k r h]
    exact ((unmarked_list_mem c k _).mp (unmarked_list_getD_mem c k r h)).1

/-- The local index chosen by find_available_cache_line is below the
associativity, provided the recency list only holds indices below the
associativity. -/
theorem find_available_idx_lt (c : Cache) (k r : Nat) (hassoc : 0 < c.associativity)
    (hlru : ∀ x ∈ (c.sets k).lru_list, x < c.associativity) :
    (find_available_cache_line c k r).2 < c.associativity := by
  unfold find_available_cache_line
  dsimp only
  split
  · rename_i i hfind
    have hmem := List.mem_of_find?_eq_some hfind
    split
    · exact List.mem_range.mp hmem
    · exact List.mem_range.mp hmem
  · split
    · cases hl : (c.sets k).lru_list with
      | nil => simpa [hl] using hassoc
      | cons x t =>
        have hx := hlru x (by rw [hl]; exact List.mem_cons_self x t)
        simpa [hl] using hx
    · split
      · cases hl : (c.sets k).lru_list with
        | nil => simpa [hl] using hassoc
        | cons x t =>
          have hmem : (x :: t).getLastD 0 ∈ x :: t := by
            rw [List.getLastD_eq_getLast?, List.getLast?_eq_getLast (x :: t) (by simp)]
            exact List.getLast_mem _
          have hx := hlru _ (by rw [hl]; exact hmem)
          simpa [hl] using hx
      · split
        · exact choose_unmarked_idx_lt c k r hassoc
        · exact Nat.mod_lt _ hassoc

/-- Two caches with equal associativity, equal first index of the probed
set, equal probe tag, and linewise equal validity and tags scan to the
same result. -/
theorem scan_eq_of_eq {c1 c2 : Cache} {k1 k2 t1 t2 : Nat}
    (hassoc : c1.associativity = c2.associativity)
    (hfi : (c1.sets k1).first_index = (c2.sets k2).first_index)
    (ht : t1 = t2)
    (hline : ∀ j, j < c2.associativity →
      ((c1.lines ((c2.sets k2).first_index + j)).is_valid
          = (c2.lines ((c2.sets k2).first_index + j)).is_valid) ∧
        ((c1.lines ((c2.sets k2).first_index + j)).tag
          = (c2.lines ((c2.sets k2).first_index + j)).tag)) :
    cache_set_find_matching_line c1 k1 t1 = cache_set_find_matching_line c2 k2 t2 := by
  unfold cache_set_find_matching_line
  rw [hassoc, hfi, ht]
  apply find?_congr_list
  intro x hx
  have hxlt := List.mem_range.mp hx
  obtain ⟨hval, htag⟩ := hline x hxlt
  unfold cache_line_check_validity_and_tag
  rw [hval, htag]

/-- Round trip through a write hit: the written line is found again by the
immediately following read, which returns the written value. -/
theorem round_trip_hit (st : SimState) (a v r1 r2 i : Nat)
    (hs : cache_set_find_matching_line (acc_inc st.cache)
      (decode_index (acc_inc st.cache) a) (decode_tag (acc_inc st.cache) a) = some i)
    (hv : v < 2 ^ 64) :
    (cache_read (cache_write st a v r1) a r2).2 = v := by
  have hw := cache_write_hit_run st a v r1 i hs
  rw [hw]
  have hC1lines : (if repl_policy (acc_inc st.cache) = CACHE_REPLACEMENTPOLICY_LRU
      then touch_mru (acc_inc st.cache) (decode_index (acc_inc st.cache) a) i
      else acc_inc st.cache).lines = st.cache.lines := by
    split <;> rfl
  have hC1fi : ∀ j, ((if repl_policy (acc_inc st.cache) = CACHE_REPLACEMENTPOLICY_LRU
      then touch_mru (acc_inc st.cache) (decode_index (acc_inc st.cache) a) i
      else acc_inc st.cache).sets j).first_index = (st.cache.sets j).first_index := by
    intro j
    split
    · exact touch_mru_first_index _ _ i j
    · rfl
  have hC1geom : geom_eq (if repl_policy (acc_inc st.cache) = CACHE_REPLACEMENTPOLICY_LRU
      then touch_mru (acc_inc st.cache) (decode_index (acc_inc st.cache) a) i
      else acc_inc st.cache) st.cache := by
    split <;> exact ⟨rfl, rfl, rfl, rfl, rfl, rfl, rfl, rfl⟩
  obtain ⟨hWgeom, hWsets, hWother, hWvalid, hWtag, hWblock⟩ :=
    apply_hit_write_spec
      ⟨if repl_policy (acc_inc st.cache) = CACHE_REPLACEMENTPOLICY_LRU
          then touch_mru (acc_inc st.cache) (decode_index (acc_inc st.cache) a) i
          else acc_inc st.cache, st.mem⟩
      (((acc_inc st.cache).sets (decode_index (acc_inc st.cache) a)).first_index + i)
      a (decode_offset (acc_inc st.cache) a) v
  set S2 : SimState := apply_hit_write
      ⟨if repl_policy (acc_inc st.cache) = CACHE_REPLACEMENTPOLICY_LRU
          then touch_mru (acc_inc st.cache) (decode_index (acc_inc st.cache) a) i
          else acc_inc st.cache, st.mem⟩
      (((acc_inc st.cache).sets (decode_index (acc_inc st.cache) a)).first_index + i)
      a (decode_offset (acc_inc st.cache) a) v with hS2def
  have hSlines : ∀ j, j ≠ ((acc_inc st.cache).sets
        (decode_index (acc_inc st.cache) a)).first_index + i →
      S2.cache.lines j = st.cache.lines j :=
    fun j hj => (hWother j hj).trans (congrFun hC1lines j)
  have hSvalid : ∀ j, (S2.cache.lines j).is_valid = (st.cache.lines j).is_valid := by
    intro j
    by_cases hj : j = ((acc_inc st.cache).sets
        (decode_index (acc_inc st.cache) a)).first_index + i
    · rw [hj]
      exact hWvalid.trans (by rw [hC1lines])
    · rw [hSlines j hj]
  have hStag : ∀ j, (S2.cache.lines j).tag = (st.cache.lines j).tag := by
    intro j
    by_cases hj : j = ((acc_inc st.cache).sets
        (decode_index (acc_inc st.cache) a)).first_index + i
    · rw [hj]
      exact hWtag.trans (by rw [hC1lines])
    · rw [hSlines j hj]
  have hSgeom : geom_eq (acc_inc S2.cache) (acc_inc st.cache) :=
    ⟨hWgeom.1.trans hC1geom.1, hWgeom.2.1.trans hC1geom.2.1,
      hWgeom.2.2.1.trans hC1geom.2.2.1, hWgeom.2.2.2.1.trans hC1geom.2.2.2.1,
      hWgeom.2.2.2.2.1.trans hC1geom.2.2.2.2.1,
      hWgeom.2.2.2.2.2.1.trans hC1geom.2.2.2.2.2.1,
      hWgeom.2.2.2.2.2.2.1.trans hC1geom.2.2.2.2.2.2.1,
      hWgeom.2.2.2.2.2.2.2.trans hC1geom.2.2.2.2.2.2.2⟩
  have hdec := decode_eq_of_geom hSgeom a
  have hSfi : ∀ j, (S2.cache.sets j).first_index = (st.cache.sets j).first_index :=
    fun j => (congrArg CacheSet.first_index (hWsets j)).trans (hC1fi j)
  have hs2 : cache_set_find_matching_line (acc_inc S2.cache)
      (decode_index (acc_inc S2.cache) a) (decode_tag (acc_inc S2.cache) a) = some i := by
    rw [@scan_eq_of_eq (acc_inc S2.cache) (acc_inc st.cache)
      (decode_index (acc_inc S2.cache) a) (decode_index (acc_inc st.cache) a)
      (decode_tag (acc_inc S2.cache) a) (decode_tag (acc_inc st.cache) a)
      hSgeom.2.2.2.2.2.2.1 (by rw [hdec.1]; exact hSfi _) hdec.2.1
      (fun j _ => ⟨hSvalid _, hStag _⟩)]
    exact hs
  have hr := cache_read_hit_run S2 a r2 i hs2
  rw [hr]
  have hif : (if repl_policy (acc_inc S2.cache) = CACHE_REPLACEMENTPOLICY_LRU
      then touch_mru (acc_inc S2.cache) (decode_index (acc_inc S2.cache) a) i
      else acc_inc S2.cache).lines = S2.cache.lines := by
    split <;> rfl
  show cache_line_retrieve_data _ _ = v
  rw [hif]
  unfold cache_line_retrieve_data
  have hidx : ((acc_inc S2.cache).sets (decode_index (acc_inc S2.cache) a)).first_index + i
      = ((acc_inc st.cache).sets (decode_index (acc_inc st.cache) a)).first_index + i := by
    rw [hdec.1]
    have h1 : ((acc_inc S2.cache).sets (decode_index (acc_inc st.cache) a)).first_index
        = ((acc_inc st.cache).sets (decode_index (acc_inc st.cache) a)).first_index :=
      hSfi _
    omega
  rw [hidx, hdec.2.2, hWblock, congrFun hC1lines]
  exact read_word64_write_bytes8 _ _ v hv

/-- Round trip through a write-no-allocate miss: the value goes to backing
memory, the following read misses again and fetches the block containing
the freshly written bytes, returning the written value. -/
theorem round_trip_miss_noalloc (st : SimState) (a v r1 r2 : Nat)
    (hs : cache_set_find_matching_line (acc_inc st.cache)
      (decode_index (acc_inc st.cache) a) (decode_tag (acc_inc st.cache) a) = none)
    (hna : is_writenoallocate (miss_inc (acc_inc st.cache)) = true)
    (hmask : st.cache.block_offset_mask = 2 ^ st.cache.cache_index_shift - 1)
    (hshift : st.cache.cache_index_shift ≤ 64)
    (ha : a < 2 ^ 64) (hv : v < 2 ^ 64)
    (hoff : decode_offset (acc_inc st.cache) a + 8 ≤ st.cache.line_size) :
    (cache_read (cache_write st a v r1) a r2).2 = v := by
  have hw := cache_write_miss_noalloc_run st a v r1 hs hna
  rw [hw]
  set CW : SimState := ⟨miss_inc (acc_inc st.cache), write_bytes8 st.mem a v⟩ with hCW
  have hs2 : cache_set_find_matching_line (acc_inc CW.cache)
      (decode_index (acc_inc CW.cache) a) (decode_tag (acc_inc CW.cache) a) = none := by
    rw [hCW]
    exact hs
  rw [cache_read_miss_run CW a r2 hs2]
  obtain ⟨h2, hmem, hgeom, hfi, hlru2, hother, htag2, hvalid2, hdirty2, hblock⟩ :=
    cache_set_add_spec ⟨miss_inc (acc_inc CW.cache), CW.mem⟩
      (decode_index (acc_inc CW.cache) a) a (decode_tag (acc_inc CW.cache) a) r2
  dsimp only
  rw [h2]
  unfold cache_line_retrieve_data read_word64
  have hoffCW : decode_offset (acc_inc CW.cache) a = decode_offset (acc_inc st.cache) a := by
    rw [hCW]
    rfl
  have hlsCW : (⟨miss_inc (acc_inc CW.cache), CW.mem⟩ : SimState).cache.line_size
      = st.cache.line_size := by
    rw [hCW]
    rfl
  rw [hoffCW]
  have hb := fun (x : Nat) (hx : x < (⟨miss_inc (acc_inc CW.cache), CW.mem⟩ :
      SimState).cache.line_size) => hblock x hx
  rw [hb (decode_offset (acc_inc st.cache) a) (by rw [hlsCW]; omega),
    hb (decode_offset (acc_inc st.cache) a + 1) (by rw [hlsCW]; omega),
    hb (decode_offset (acc_inc st.cache) a + 2) (by rw [hlsCW]; omega),
    hb (decode_offset (acc_inc st.cache) a + 3) (by rw [hlsCW]; omega),
    hb (decode_offset (acc_inc st.cache) a + 4) (by rw [hlsCW]; omega),
    hb (decode_offset (acc_inc st.cache) a + 5) (by rw [hlsCW]; omega),
    hb (decode_offset (acc_inc st.cache) a + 6) (by rw [hlsCW]; omega),
    hb (decode_offset (acc_inc st.cache) a + 7) (by rw [hlsCW]; omega)]
  have hbomCW : (⟨miss_inc (acc_inc CW.cache), CW.mem⟩ : SimState).cache.block_offset_mask
      = st.cache.block_offset_mask := by
    rw [hCW]
    rfl
  have hmemCW : (⟨miss_inc (acc_inc CW.cache), CW.mem⟩ : SimState).mem
      = write_bytes8 st.mem a v := by
    rw [hCW]
  rw [hbomCW, hmemCW, hmask]
  have hoffmask : decode_offset (acc_inc st.cache) a
      = a &&& (2 ^ st.cache.cache_index_shift - 1) := by
    have hmask2 : (acc_inc st.cache).block_offset_mask
        = 2 ^ st.cache.cache_index_shift - 1 := hmask
    unfold decode_offset
    rw [hmask2]
  rw [hoffmask]
  have hsum : (a &&& ((2 ^ 64 - 1) ^^^ (2 ^ st.cache.cache_index_shift - 1)))
      + (a &&& (2 ^ st.cache.cache_index_shift - 1)) = a :=
    base_add_offset a st.cache.cache_index_shift ha hshift
  rw [show (a &&& ((2 ^ 64 - 1) ^^^ (2 ^ st.cache.cache_index_shift - 1)))
      + (a &&& (2 ^ st.cache.cache_index_shift - 1)) = a from hsum,
    show (a &&& ((2 ^ 64 - 1) ^^^ (2 ^ st.cache.cache_index_shift - 1)))
      + ((a &&& (2 ^ st.cache.cache_index_shift - 1)) + 1) = a + 1 from by omega,
    show (a &&& ((2 ^ 64 - 1) ^^^ (2 ^ st.cache.cache_index_shift - 1)))
      + ((a &&& (2 ^ st.cache.cache_index_shift - 1)) + 2) = a + 2 from by omega,
    show (a &&& ((2 ^ 64 - 1) ^^^ (2 ^ st.cache.cache_index_shift - 1)))
      + ((a &&& (2 ^ st.cache.cache_index_shift - 1)) + 3) = a + 3 from by omega,
    show (a &&& ((2 ^ 64 - 1) ^^^ (2 ^ st.cache.cache_index_shift - 1)))
      + ((a &&& (2 ^ st.cache.cache_index_shift - 1)) + 4) = a + 4 from by omega,
    show (a &&& ((2 ^ 64 - 1) ^^^ (2 ^ st.cache.cache_index_shift - 1)))
      + ((a &&& (2 ^ st.cache.cache_index_shift - 1)) + 5) = a + 5 from by omega,
    show (a &&& ((2 ^ 64 - 1) ^^^ (2 ^ st.cache.cache_index_shift - 1)))
      + ((a &&& (2 ^ st.cache.cache_index_shift - 1)) + 6) = a + 6 from by omega,
    show (a &&& ((2 ^ 64 - 1) ^^^ (2 ^ st.cache.cache_index_shift - 1)))
      + ((a &&& (2 ^ st.cache.cache_index_shift - 1)) + 7) = a + 7 from by omega]
  have hfin := read_word64_write_bytes8 st.mem a v hv
  unfold read_word64 at hfin
  exact hfin

/-- Round trip through a write-allocate miss: a line is installed for the
written address, the written bytes land in its block, and the following
read finds exactly that line and returns the written value. -/
theorem round_trip_miss_alloc (st : SimState) (a v r1 r2 : Nat)
    (hs : cache_set_find_matching_line (acc_inc st.cache)
      (decode_index (acc_inc st.cache) a) (decode_tag (acc_inc st.cache) a) = none)
    (hna : is_writenoallocate (miss_inc (acc_inc st.cache)) = false)
    (hassoc : 0 < st.cache.associativity)
    (hlru : ∀ x ∈ (st.cache.sets (decode_index (acc_inc st.cache) a)).lru_list,
      x < st.cache.associativity)
    (hv : v < 2 ^ 64) :
    (cache_read (cache_write st a v r1) a r2).2 = v := by
  have hw := cache_write_miss_alloc_run st a v r1 hs hna
  obtain ⟨h2, hmemA, hgeomA, hfiA, hlruA, hotherA, htagA, hvalidA, hdirtyA, hblockA⟩ :=
    cache_set_add_spec ⟨miss_inc (acc_inc st.cache), st.mem⟩
      (decode_index (acc_inc st.cache) a) a (decode_tag (acc_inc st.cache) a) r1
  rw [← h2] at hotherA htagA hvalidA hdirtyA hblockA
  obtain ⟨hWgeom, hWsets, hWother, hWvalid, hWtag, hWblock⟩ :=
    apply_hit_write_spec
      (cache_set_add ⟨miss_inc (acc_inc st.cache), st.mem⟩
        (decode_index (acc_inc st.cache) a) a (decode_tag (acc_inc st.cache) a) r1).1
      (cache_set_add ⟨miss_inc (acc_inc st.cache), st.mem⟩
        (decode_index (acc_inc st.cache) a) a (decode_tag (acc_inc st.cache) a) r1).2
      a (decode_offset (acc_inc st.cache) a) v
  rw [hw]
  set W : SimState := apply_hit_write
      (cache_set_add ⟨miss_inc (acc_inc st.cache), st.mem⟩
        (decode_index (acc_inc st.cache) a) a (decode_tag (acc_inc st.cache) a) r1).1
      (cache_set_add ⟨miss_inc (acc_inc st.cache), st.mem⟩
        (decode_index (acc_inc st.cache) a) a (decode_tag (acc_inc st.cache) a) r1).2
      a (decode_offset (acc_inc st.cache) a) v with hWdef
  have hgeomW : geom_eq (acc_inc W.cache) (acc_inc st.cache) :=
    ⟨hWgeom.1.trans hgeomA.1, hWgeom.2.1.trans hgeomA.2.1,
      hWgeom.2.2.1.trans hgeomA.2.2.1, hWgeom.2.2.2.1.trans hgeomA.2.2.2.1,
      hWgeom.2.2.2.2.1.trans hgeomA.2.2.2.2.1,
      hWgeom.2.2.2.2.2.1.trans hgeomA.2.2.2.2.2.1,
      hWgeom.2.2.2.2.2.2.1.trans hgeomA.2.2.2.2.2.2.1,
      hWgeom.2.2.2.2.2.2.2.trans hgeomA.2.2.2.2.2.2.2⟩
  have hdec := decode_eq_of_geom hgeomW a
  have hfiR : ((acc_inc W.cache).sets (decode_index (acc_inc W.cache) a)).first_index
      = (st.cache.sets (decode_index (acc_inc st.cache) a)).first_index := by
    rw [hdec.1]
    exact (congrArg CacheSet.first_index (hWsets _)).trans (hfiA _)
  have hfiG : ((find_available_cache_line
        (⟨miss_inc (acc_inc st.cache), st.mem⟩ : SimState).cache
        (decode_index (acc_inc st.cache) a) r1).1.sets
        (decode_index (acc_inc st.cache) a)).first_index
      = (st.cache.sets (decode_index (acc_inc st.cache) a)).first_index :=
    (find_available_preserves (⟨miss_inc (acc_inc st.cache), st.mem⟩ : SimState).cache
      (decode_index (acc_inc st.cache) a) r1).2.2 _
  have hi0 : (find_available_cache_line
        (⟨miss_inc (acc_inc st.cache), st.mem⟩ : SimState).cache
        (decode_index (acc_inc st.cache) a) r1).2 < st.cache.associativity :=
    find_available_idx_lt (⟨miss_inc (acc_inc st.cache), st.mem⟩ : SimState).cache
      (decode_index (acc_inc st.cache) a) r1 hassoc hlru
  have hidx : ((acc_inc W.cache).sets (decode_index (acc_inc W.cache) a)).first_index
        + (find_available_cache_line
            (⟨miss_inc (acc_inc st.cache), st.mem⟩ : SimState).cache
            (decode_index (acc_inc st.cache) a) r1).2
      = (cache_set_add ⟨miss_inc (acc_inc st.cache), st.mem⟩
          (decode_index (acc_inc st.cache) a) a (decode_tag (acc_inc st.cache) a) r1).2 := by
    rw [h2]
    omega
  unfold cache_set_find_matching_line at hs
  have hnone := List.find?_eq_none.mp hs
  have hs2 : cache_set_find_matching_line (acc_inc W.cache)
      (decode_index (acc_inc W.cache) a) (decode_tag (acc_inc W.cache) a)
      = some (find_available_cache_line
          (⟨miss_inc (acc_inc st.cache), st.mem⟩ : SimState).cache
          (decode_index (acc_inc st.cache) a) r1).2 := by
    unfold cache_set_find_matching_line
    rw [show (acc_inc W.cache).associativity = st.cache.associativity
      from hgeomW.2.2.2.2.2.2.1]
    apply find?_range_unique st.cache.associativity _ _ hi0
    · rw [hidx]
      unfold cache_line_check_validity_and_tag
      have hv1 : ((acc_inc W.cache).lines
          (cache_set_add ⟨miss_inc (acc_inc st.cache), st.mem⟩
            (decode_index (acc_inc st.cache) a) a
            (decode_tag (acc_inc st.cache) a) r1).2).is_valid = true :=
        hWvalid.trans hvalidA
      have hv2 : ((acc_inc W.cache).lines
          (cache_set_add ⟨miss_inc (acc_inc st.cache), st.mem⟩
            (decode_index (acc_inc st.cache) a) a
            (decode_tag (acc_inc st.cache) a) r1).2).tag
          = decode_tag (acc_inc st.cache) a :=
        hWtag.trans htagA
      rw [hv1, hv2, hdec.2.1]
      simp
    · intro j hj hne
      have hidxj : ((acc_inc W.cache).sets (decode_index (acc_inc W.cache) a)).first_index + j
          ≠ (cache_set_add ⟨miss_inc (acc_inc st.cache), st.mem⟩
              (decode_index (acc_inc st.cache) a) a
              (decode_tag (acc_inc st.cache) a) r1).2 := by
        rw [h2]
        omega
      have hWl : W.cache.lines
            (((acc_inc W.cache).sets (decode_index (acc_inc W.cache) a)).first_index + j)
          = (cache_set_add ⟨miss_inc (acc_inc st.cache), st.mem⟩
              (decode_index (acc_inc st.cache) a) a
              (decode_tag (acc_inc st.cache) a) r1).1.cache.lines
            (((acc_inc W.cache).sets (decode_index (acc_inc W.cache) a)).first_index + j) :=
        hWother _ hidxj
      have hcore := hotherA _ hidxj
      have hval : ((acc_inc W.cache).lines
            (((acc_inc W.cache).sets (decode_index (acc_inc W.cache) a)).first_index + j)).is_valid
          = (st.cache.lines
            (((acc_inc W.cache).sets (decode_index (acc_inc W.cache) a)).first_index + j)).is_valid :=
        (congrArg CacheLine.is_valid hWl).trans hcore.1
      have htg : ((acc_inc W.cache).lines
            (((acc_inc W.cache).sets (decode_index (acc_inc W.cache) a)).first_index + j)).tag
          = (st.cache.lines
            (((acc_inc W.cache).sets (decode_index (acc_inc W.cache) a)).first_index + j)).tag :=
        (congrArg CacheLine.tag hWl).trans hcore.2.1
      have hj2 := hnone j (List.mem_range.mpr
        (show j < (acc_inc st.cache).associativity from hj))
      have hdefeqfi : ((acc_inc st.cache).sets (decode_index (acc_inc st.cache) a)).first_index
          = (st.cache.sets (decode_index (acc_inc st.cache) a)).first_index := rfl
      have hie : ((acc_inc W.cache).sets (decode_index (acc_inc W.cache) a)).first_index + j
          = ((acc_inc st.cache).sets (decode_index (acc_inc st.cache) a)).first_index + j := by
        omega
      unfold cache_line_check_validity_and_tag
      rw [hval, htg, hdec.2.1, hie]
      unfold cache_line_check_validity_and_tag at hj2
      cases hb : ((acc_inc st.cache).lines
          (((acc_inc st.cache).sets (decode_index (acc_inc st.cache) a)).first_index + j)).is_valid
          && (((acc_inc st.cache).lines
            (((acc_inc st.cache).sets (decode_index (acc_inc st.cache) a)).first_index
              + j)).tag == decode_tag (acc_inc st.cache) a) with
      | false => exact hb
      | true => exact absurd hb hj2
  have hr := cache_read_hit_run W a r2 _ hs2
  rw [hr]
  show cache_line_retrieve_data _ _ = v
  have hif : (if repl_policy (acc_inc W.cache) = CACHE_REPLACEMENTPOLICY_LRU
      then touch_mru (acc_inc W.cache) (decode_index (acc_inc W.cache) a)
        (find_available_cache_line
          (⟨miss_inc (acc_inc st.cache), st.mem⟩ : SimState).cache
          (decode_index (acc_inc st.cache) a) r1).2
      else acc_inc W.cache).lines = W.cache.lines := by
    split <;> rfl
  rw [hif]
  unfold cache_line_retrieve_data
  rw [hidx, hdec.2.2, hWblock]
  exact read_word64_write_bytes8 _ _ v hv

/-- C4: for every cache state (any geometry with a well-formed low-bits
offset mask, any policy combination, any recency list confined to the
set), any 64-bit address and value, and any word-aligned access that fits
inside a line, writing the value and then immediately reading the same
address returns the written value, regardless of the replacement policy
and of the write and allocation policies: the proof covers the write-hit,
write-no-allocate-miss and write-allocate-miss paths of the access
engine. -/
theorem C4_write_read_round_trip (st : SimState) (a v r1 r2 : Nat)
    (hassoc : 0 < st.cache.associativity)
    (hlru : ∀ x ∈ (st.cache.sets (decode_index (acc_inc st.cache) a)).lru_list,
      x < st.cache.associativity)
    (hmask : st.cache.block_offset_mask = 2 ^ st.cache.cache_index_shift - 1)
    (hshift : st.cache.cache_index_shift ≤ 64)
    (ha : a < 2 ^ 64) (hv : v < 2 ^ 64)
    (hoff : decode_offset (acc_inc st.cache) a + 8 ≤ st.cache.line_size) :
    (cache_read (cache_write st a v r1) a r2).2 = v := by
  cases hscan : cache_set_find_matching_line (acc_inc st.cache)
      (decode_index (acc_inc st.cache) a) (decode_tag (acc_inc st.cache) a) with
  | some i => exact round_trip_hit st a v r1 r2 i hscan hv
  | none =>
    cases hna : is_writenoallocate (miss_inc (acc_inc st.cache)) with
    | true => exact round_trip_miss_noalloc st a v r1 r2 hscan hna hmask hshift ha hv hoff
    | false => exact round_trip_miss_alloc st a v r1 r2 hscan hna hassoc hlru hv

/-- C4 witness: the round trip evaluated on a freshly constructed cache
(256 bytes, 16-byte lines, associativity 2, RANDOM + write-through +
write-allocate), writing 123456789 to address 8 and reading it back. -/
theorem C4_write_read_round_trip_witness :
    0 < (cache_new 256 16 2 0).associativity ∧
    (∀ x ∈ ((cache_new 256 16 2 0).sets
        (decode_index (acc_inc (cache_new 256 16 2 0)) 8)).lru_list,
      x < (cache_new 256 16 2 0).associativity) ∧
    (cache_new 256 16 2 0).block_offset_mask
      = 2 ^ (cache_new 256 16 2 0).cache_index_shift - 1 ∧
    (cache_new 256 16 2 0).cache_index_shift ≤ 64 ∧
    (8 : Nat) < 2 ^ 64 ∧ (123456789 : Nat) < 2 ^ 64 ∧
    decode_offset (acc_inc (cache_new 256 16 2 0)) 8 + 8
      ≤ (cache_new 256 16 2 0).line_size ∧
    (cache_read (cache_write ⟨cache_new 256 16 2 0, fun _ => 0⟩ 8 123456789 0) 8 0).2
      = 123456789 :=
  ⟨by decide, by decide, by decide, by decide, by decide, by decide, by decide,
    C4_write_read_round_trip ⟨cache_new 256 16 2 0, fun _ => 0⟩ 8 123456789 0 0
      (by decide) (by decide) (by decide) (by decide) (by decide) (by decide) (by decide)⟩
